import Mathlib

/-
Verification of the mosaik workflow-graph engine.

The definitions below are a shallow embedding of the Rust sources:
  src/components/workflow.rs    (Workflow, graph CRUD, input aggregation,
                                 output propagation, execution order)
  src/components/nodes/mod.rs   (Node, NodeType, prepare_prompt)
  src/components/nodes/model.rs (execute_model_node streaming loop)
  src/components/canvas.rs      (CanvasState, coordinate transforms, zoom)
  src/components/connections.rs (Connection, ConnectionDrawingState)
  src/main.rs                   (run_workflow scheduling loop)

Rust HashMap values are embedded as association lists `List (Nat × α)`
with insert-replaces semantics; f64 coordinates are embedded as exact
rationals `Rat`; fallible operations return `Except String`.
-/

namespace Mosaik

/-! ## Association-list maps (embedding of `std::collections::HashMap<usize, α>`) -/

/-- `HashMap::get`: first binding of the key, if any. -/
def mfind? {α : Type} : List (Nat × α) → Nat → Option α
  | [], _ => none
  | (k2, v) :: rest, k => if k2 = k then some v else mfind? rest k

/-- `HashMap::insert`: replaces any existing binding of the key. -/
def minsert {α : Type} (m : List (Nat × α)) (k : Nat) (v : α) : List (Nat × α) :=
  (m.filter (fun p => p.1 != k)) ++ [(k, v)]

/-- `HashMap::remove`. -/
def merase {α : Type} (m : List (Nat × α)) (k : Nat) : List (Nat × α) :=
  m.filter (fun p => p.1 != k)

/-- `HashMap::get_mut` followed by an in-place update (no-op when absent). -/
def mmodify {α : Type} : List (Nat × α) → Nat → (α → α) → List (Nat × α)
  | [], _, _ => []
  | (k2, v) :: rest, k, f =>
      if k2 = k then (k2, f v) :: mmodify rest k f else (k2, v) :: mmodify rest k f

/-- `HashMap::values`. -/
def mvalues {α : Type} (m : List (Nat × α)) : List α := m.map Prod.snd

/-- `HashMap::keys`. -/
def mkeys {α : Type} (m : List (Nat × α)) : List Nat := m.map Prod.fst

/-- `HashMap::contains_key`. -/
def mcontains {α : Type} (m : List (Nat × α)) (k : Nat) : Bool :=
  m.any (fun p => p.1 = k)

/-! ## Data model (nodes/mod.rs, connections.rs, canvas.rs) -/

inductive MessageRole where
  | user
  | assistant
  deriving DecidableEq, Repr

/-- `ChatMessage` from nodes/mod.rs.  The streaming providers in llm/ also
deliver their chunks as `ChatMessage` values (content fragment plus optional
thinking fragment). -/
structure ChatMessage where
  role : MessageRole
  content : String
  thinking : Option String
  deriving DecidableEq, Repr

inductive ProviderType where
  | ollama
  | anthropic
  deriving DecidableEq, Repr

inductive NodeType where
  | prompt
  | fileImport (file_path : Option String) (file_name : Option String)
  | fileExport (folder_path : Option String) (file_name : Option String) (file_type : String)
  | model (provider : ProviderType) (model_name : String)
      (messages : List ChatMessage) (thinking : Bool)
  deriving DecidableEq, Repr

structure Node where
  id : Nat
  node_type : NodeType
  position_x : Rat
  position_y : Rat
  width : Rat
  height : Rat
  title : String
  input : Option String
  output : Option String
  drag_offset_x : Rat
  drag_offset_y : Rat
  is_maximized : Bool
  needs_execution : Bool
  is_executing : Bool
  deriving DecidableEq, Repr

structure Connection where
  id : Nat
  from_node_id : Nat
  to_node_id : Nat
  deriving DecidableEq, Repr

structure ConnectionDrawingState where
  active : Bool
  source_node_id : Nat
  source_port_world_pos : Rat × Rat
  current_mouse_world_pos : Rat × Rat
  target_node_id : Option Nat
  deriving DecidableEq, Repr

/-- `ConnectionDrawingState::default()`. -/
def ConnectionDrawingState.dflt : ConnectionDrawingState :=
  { active := false
    source_node_id := 0
    source_port_world_pos := (0, 0)
    current_mouse_world_pos := (0, 0)
    target_node_id := none }

structure Workflow where
  nodes : List (Nat × Node)
  connections : List (Nat × Connection)
  next_node_id : Nat
  next_connection_id : Nat
  selected_node_id : Option Nat
  dragging_node_id : Option Nat
  drawing_connection_state : ConnectionDrawingState
  deriving DecidableEq, Repr

structure CanvasState where
  offset_x : Rat
  offset_y : Rat
  zoom : Rat
  dragging : Bool
  drag_start_x : Rat
  drag_start_y : Rat
  last_offset_x : Rat
  last_offset_y : Rat
  deriving DecidableEq, Repr

/-! ## CanvasState operations (canvas.rs) -/

def CanvasState.page_to_world_coords (s : CanvasState) (page_x page_y : Rat) : Rat × Rat :=
  ((page_x - s.offset_x) / s.zoom, (page_y - s.offset_y) / s.zoom)

def CanvasState.world_to_page_coords (s : CanvasState) (world_x world_y : Rat) : Rat × Rat :=
  (world_x * s.zoom + s.offset_x, world_y * s.zoom + s.offset_y)

/-- `f64::clamp(min, max)` on exact rationals. -/
def clampRat (x lo hi : Rat) : Rat :=
  if x < lo then lo else if x > hi then hi else x

/-- The zoom-at-cursor computation of the `on_wheel` handler in canvas.rs
(lines 186-208), with the already-converted wheel delta as parameter. -/
def CanvasState.on_wheel (s : CanvasState) (mouse_x mouse_y wheel_delta : Rat) : CanvasState :=
  let zoom_factor := 1 + wheel_delta
  let new_zoom := clampRat (s.zoom * zoom_factor) (1/10) 10
  let world_mouse_x := (mouse_x - s.offset_x) / s.zoom
  let world_mouse_y := (mouse_y - s.offset_y) / s.zoom
  let new_offset_x := mouse_x - world_mouse_x * new_zoom
  let new_offset_y := mouse_y - world_mouse_y * new_zoom
  { s with offset_x := new_offset_x, offset_y := new_offset_y, zoom := new_zoom }

/-! ## Node construction and prompt preparation (nodes/mod.rs) -/

/-- `get_port_world_pos` from connections.rs. -/
def get_port_world_pos (node : Node) (port_type : String) : Rat × Rat :=
  if port_type = "input" then
    (node.position_x, node.position_y + node.height / 2)
  else if port_type = "output" then
    (node.position_x + node.width, node.position_y + node.height / 2)
  else
    (node.position_x, node.position_y)

/-- `Node::new` from nodes/mod.rs. -/
def Node.new (id : Nat) (node_type : NodeType) (position_x position_y : Rat) : Node :=
  let (title, width, height, specific) : String × Rat × Rat × NodeType :=
    match node_type with
    | NodeType.prompt => ("Prompt", 200, 200, NodeType.prompt)
    | NodeType.fileImport _ _ =>
        ("File Import", 200, 150, NodeType.fileImport none none)
    | NodeType.fileExport _ _ _ =>
        ("File Export", 200, 150, NodeType.fileExport none none "txt")
    | NodeType.model provider _ _ _ =>
        let (title, model_name) : String × String :=
          match provider with
          | ProviderType.ollama => ("Ollama", "")
          | ProviderType.anthropic => ("Anthropic", "claude-sonnet-4-20250514")
        (title, 250, 300, NodeType.model provider model_name [] false)
  { id := id
    node_type := specific
    position_x := position_x
    position_y := position_y
    width := width
    height := height
    title := title
    input := none
    output := none
    drag_offset_x := 0
    drag_offset_y := 0
    is_maximized := false
    needs_execution := true
    is_executing := false }

/-- `Node::prepare_prompt` from nodes/mod.rs lines 140-161. -/
def Node.prepare_prompt (n : Node) : Except String (List ChatMessage) :=
  match n.node_type with
  | NodeType.model _ _ chat_messages _ =>
    let lead : List ChatMessage :=
      match n.input with
      | some input =>
          if input.trim.isEmpty then []
          else [{ role := MessageRole.user, content := input, thinking := none }]
      | none => []
    let messages := lead ++ chat_messages
    if messages.isEmpty then
      Except.error ("No input or messages provided to model")
    else
      Except.ok messages
  | _ => Except.error ("prepare_prompt called on non-model node")

/-! ## Workflow operations (workflow.rs) -/

/-- Lexicographic comparison used by `sort_by` in
`update_node_input_from_all_sources` and `get_input_order_number`:
ascending by `(position_y, position_x)`. -/
def posLe (a b : Rat × Rat × String) : Bool :=
  decide (a.1 < b.1 ∨ (a.1 = b.1 ∧ a.2.1 ≤ b.2.1))

/-- Stable insertion used by `sortByPos`. -/
def insertPos (x : Rat × Rat × String) : List (Rat × Rat × String) → List (Rat × Rat × String)
  | [] => [x]
  | y :: ys => if posLe x y then x :: y :: ys else y :: insertPos x ys

/-- Stable ascending sort by `(position_y, position_x)`
(`Vec::sort_by` with `partial_cmp` then `then_with`). -/
def sortByPos : List (Rat × Rat × String) → List (Rat × Rat × String)
  | [] => []
  | x :: xs => insertPos x (sortByPos xs)

/-- The `(position_y, position_x, output)` triples collected by
`update_node_input_from_all_sources` (workflow.rs lines 228-239): one triple
per connection into the target whose source node exists and has an output. -/
def Workflow.source_data (w : Workflow) (target_node_id : Nat) : List (Rat × Rat × String) :=
  (mvalues w.connections).filterMap (fun conn =>
    if conn.to_node_id = target_node_id then
      (mfind? w.nodes conn.from_node_id).bind (fun node =>
        node.output.map (fun output => (node.position_y, node.position_x, output)))
    else none)

/-- `update_node_input_from_all_sources` (workflow.rs lines 226-259). -/
def Workflow.update_node_input_from_all_sources (w : Workflow) (target_node_id : Nat) : Workflow :=
  let source_data := w.source_data target_node_id
  let sorted := sortByPos source_data
  let combined_input : Option String :=
    if source_data.isEmpty then none
    else some (String.intercalate "\n\n" (sorted.map (fun t => t.2.2)))
  { w with nodes := (mmodify w.nodes target_node_id
      (fun target_node => { target_node with input := combined_input })) }

/-- The direct targets of a source node: `to_node_id` of every connection
leaving it (workflow.rs lines 211-215). -/
def Workflow.direct_targets (w : Workflow) (source_node_id : Nat) : List Nat :=
  ((mvalues w.connections).filter (fun conn => conn.from_node_id = source_node_id)).map
    (fun conn => conn.to_node_id)

/-- The body of the `for target_id in target_node_ids` loop of
`propagate_output_to_connected_nodes` (workflow.rs lines 218-223): recompute
the target's input and mark it as needing execution. -/
def Workflow.propagate_step (acc : Workflow) (target_id : Nat) : Workflow :=
  let acc2 := acc.update_node_input_from_all_sources target_id
  { acc2 with nodes := (mmodify acc2.nodes target_id
      (fun node => { node with needs_execution := true })) }

/-- `propagate_output_to_connected_nodes` (workflow.rs lines 209-224). -/
def Workflow.propagate_output_to_connected_nodes (w : Workflow) (source_node_id : Nat) : Workflow :=
  (w.direct_targets source_node_id).foldl Workflow.propagate_step w

/-- `update_node_output` (workflow.rs lines 201-207). -/
def Workflow.update_node_output (w : Workflow) (node_id : Nat) (new_output : String) : Workflow :=
  let w1 := { w with nodes := (mmodify w.nodes node_id
      (fun node => { node with output := some new_output, needs_execution := false })) }
  w1.propagate_output_to_connected_nodes node_id

/-- `add_node` (workflow.rs lines 45-52). -/
def Workflow.add_node (w : Workflow) (node_type_variant : NodeType)
    (position_x position_y : Rat) : Workflow × Nat :=
  let id := w.next_node_id
  let node := Node.new id node_type_variant position_x position_y
  ({ w with nodes := minsert w.nodes id node, next_node_id := id + 1 }, id)

/-- `cancel_drawing_connection` (workflow.rs lines 280-282). -/
def Workflow.cancel_drawing_connection (w : Workflow) : Workflow :=
  { w with drawing_connection_state := ConnectionDrawingState.dflt }

/-- `remove_node` (workflow.rs lines 54-67). -/
def Workflow.remove_node (w : Workflow) (id : Nat) : Workflow :=
  let w := { w with nodes := merase w.nodes id }
  let w := { w with connections := (w.connections.filter
      (fun p => p.2.from_node_id != id && p.2.to_node_id != id)) }
  let w := if w.selected_node_id = some id then { w with selected_node_id := none } else w
  let w := if w.dragging_node_id = some id then { w with dragging_node_id := none } else w
  if w.drawing_connection_state.active && w.drawing_connection_state.source_node_id = id then
    w.cancel_drawing_connection
  else w

/-- `add_connection` (workflow.rs lines 69-84). -/
def Workflow.add_connection (w : Workflow) (from_node_id to_node_id : Nat) :
    Workflow × Except String Nat :=
  if from_node_id = to_node_id then
    (w, Except.error ("Cannot connect a node to itself"))
  else
    let conn_id := w.next_connection_id
    let w1 := { w with
      connections := minsert w.connections conn_id
        { id := conn_id, from_node_id := from_node_id, to_node_id := to_node_id }
      next_connection_id := conn_id + 1 }
    let w2 := w1.update_node_input_from_all_sources to_node_id
    let w3 := { w2 with nodes := (mmodify w2.nodes to_node_id
        (fun node => { node with needs_execution := true })) }
    (w3, Except.ok conn_id)

/-- `remove_connection_by_target_node` (workflow.rs lines 86-96). -/
def Workflow.remove_connection_by_target_node (w : Workflow) (target_node_id : Nat) : Workflow :=
  match w.connections.find? (fun p => p.2.to_node_id = target_node_id) with
  | some p =>
    let w1 := { w with connections := merase w.connections p.1 }
    { w1 with nodes := (mmodify w1.nodes target_node_id
        (fun node => { node with input := none })) }
  | none => w

/-- `start_dragging_node` (workflow.rs lines 98-105).  Note the Rust code
only sets `dragging_node_id` when the node exists (inside the `get_mut`). -/
def Workflow.start_dragging_node (w : Workflow) (node_id : Nat)
    (mouse_page_x mouse_page_y : Rat) (canvas : CanvasState) : Workflow :=
  if mcontains w.nodes node_id then
    let mouse_world_pos := canvas.page_to_world_coords mouse_page_x mouse_page_y
    let w := { w with dragging_node_id := some node_id }
    { w with nodes := (mmodify w.nodes node_id (fun node =>
        { node with
          drag_offset_x := mouse_world_pos.1 - node.position_x
          drag_offset_y := mouse_world_pos.2 - node.position_y })) }
  else w

/-- `drag_node` (workflow.rs lines 107-115). -/
def Workflow.drag_node (w : Workflow) (mouse_page_x mouse_page_y : Rat)
    (canvas : CanvasState) : Workflow :=
  match w.dragging_node_id with
  | some node_id =>
    let mouse_world_pos := canvas.page_to_world_coords mouse_page_x mouse_page_y
    { w with nodes := (mmodify w.nodes node_id (fun node =>
        { node with
          position_x := mouse_world_pos.1 - node.drag_offset_x
          position_y := mouse_world_pos.2 - node.drag_offset_y })) }
  | none => w

/-- `end_dragging_node` (workflow.rs lines 117-123). -/
def Workflow.end_dragging_node (w : Workflow) : Workflow :=
  match w.dragging_node_id with
  | some dragged_node_id =>
    let w := { w with dragging_node_id := none }
    w.propagate_output_to_connected_nodes dragged_node_id
  | none => w

/-- `start_drawing_connection` (workflow.rs lines 155-166). -/
def Workflow.start_drawing_connection (w : Workflow) (source_node_id : Nat)
    (port_page_x port_page_y : Rat) (canvas : CanvasState) : Workflow :=
  if mcontains w.nodes source_node_id then
    let source_port_world_pos := canvas.page_to_world_coords port_page_x port_page_y
    { w with drawing_connection_state :=
        { active := true
          source_node_id := source_node_id
          source_port_world_pos := source_port_world_pos
          current_mouse_world_pos := source_port_world_pos
          target_node_id := none } }
  else w

/-- `redirect_connection` (workflow.rs lines 168-194). -/
def Workflow.redirect_connection (w : Workflow) (target_node_id : Nat) : Workflow :=
  match w.connections.find? (fun p => p.2.to_node_id = target_node_id) with
  | none => w
  | some p =>
    let source_node_id := p.2.from_node_id
    let current_mouse_pos :=
      if w.drawing_connection_state.active then
        w.drawing_connection_state.current_mouse_world_pos
      else match mfind? w.nodes target_node_id with
        | some target_node => get_port_world_pos target_node "input"
        | none => (0, 0)
    match mfind? w.nodes source_node_id with
    | none => w
    | some source_node =>
      let source_port_world_pos := get_port_world_pos source_node "output"
      let w := { w with drawing_connection_state :=
          { active := true
            source_node_id := source_node_id
            source_port_world_pos := source_port_world_pos
            current_mouse_world_pos := current_mouse_pos
            target_node_id := none } }
      w.remove_connection_by_target_node target_node_id

/-- `update_drawing_connection` (workflow.rs lines 196-199). -/
def Workflow.update_drawing_connection (w : Workflow) (mouse_page_x mouse_page_y : Rat)
    (canvas : CanvasState) : Workflow :=
  let mouse_world_pos := canvas.page_to_world_coords mouse_page_x mouse_page_y
  { w with drawing_connection_state :=
      { w.drawing_connection_state with current_mouse_world_pos := mouse_world_pos } }

/-- `complete_drawing_connection` (workflow.rs lines 261-278). -/
def Workflow.complete_drawing_connection (w : Workflow) :
    Workflow × Option (Except String Nat) :=
  match w.drawing_connection_state.target_node_id with
  | none =>
    (w.cancel_drawing_connection, some (Except.error ("No valid target found for connection")))
  | some target_id =>
    let (w1, result) :=
      if mcontains w.nodes w.drawing_connection_state.source_node_id then
        let (w2, r) := w.add_connection w.drawing_connection_state.source_node_id target_id
        (w2, some r)
      else
        (w, some (Except.error ("Source node for connection no longer exists")))
    (w1.cancel_drawing_connection, result)

/-- `set_connection_target` (workflow.rs lines 284-289). -/
def Workflow.set_connection_target (w : Workflow) (target_id : Nat) : Workflow :=
  if w.drawing_connection_state.source_node_id ≠ target_id then
    { w with drawing_connection_state :=
        { w.drawing_connection_state with target_node_id := some target_id } }
  else w

/-- `clear_connection_target` (workflow.rs lines 291-293). -/
def Workflow.clear_connection_target (w : Workflow) : Workflow :=
  { w with drawing_connection_state :=
      { w.drawing_connection_state with target_node_id := none } }

/-! ## Execution scheduler (workflow.rs `execution_order`, main.rs `run_workflow`) -/

/-- The eligible set: ids of Model-kind nodes with `needs_execution == true`
(workflow.rs lines 297-303). -/
def Workflow.model_nodes_list (w : Workflow) : List Nat :=
  w.nodes.filterMap (fun p =>
    match p.2.node_type with
    | NodeType.model _ _ _ _ => if p.2.needs_execution then some p.1 else none
    | _ => none)

/-- `HashSet::insert` on a list carrier. -/
def depsInsert (ds : List Nat) (x : Nat) : List Nat :=
  if ds.contains x then ds else ds ++ [x]

/-- `model_nodes.iter().map(|&id| (id, HashSet::new())).collect()`
(workflow.rs lines 306-307). -/
def initDeps (mn : List Nat) : List (Nat × List Nat) :=
  mn.foldl (fun m id => minsert m id []) []

/-- One iteration of the `for connection in self.connections.values()` loop
(workflow.rs lines 309-313). -/
def depStep (mn : List Nat) (m : List (Nat × List Nat)) (conn : Connection) :
    List (Nat × List Nat) :=
  if mn.contains conn.to_node_id && mn.contains conn.from_node_id then
    mmodify m conn.to_node_id (fun deps => depsInsert deps conn.from_node_id)
  else m

/-- The dependency map of `execution_order` (workflow.rs lines 305-313):
each eligible node id maps to the set of eligible nodes it depends on. -/
def Workflow.build_dependencies (w : Workflow) : List (Nat × List Nat) :=
  (mvalues w.connections).foldl (depStep w.model_nodes_list)
    (initDeps w.model_nodes_list)

/-- The dependency-free ids selected at the top of each `while` iteration of
`execution_order` (workflow.rs lines 320-325). -/
def kahnReady (remaining : List (Nat × List Nat)) : List Nat :=
  (remaining.filter (fun p => p.2.isEmpty)).map Prod.fst

/-- The `remaining` map after one `while` iteration of `execution_order`
(workflow.rs lines 331-342): ready entries deleted, and ready ids removed
from every other entry's dependency set. -/
def kahnNext (remaining : List (Nat × List Nat)) : List (Nat × List Nat) :=
  (remaining.filter (fun p => !(kahnReady remaining).contains p.1)).map
    (fun p => (p.1, p.2.filter (fun d => !(kahnReady remaining).contains d)))

theorem kahnNext_length_lt (remaining : List (Nat × List Nat))
    (h : (kahnReady remaining).isEmpty = false) :
    (kahnNext remaining).length < remaining.length := by
  have hne : kahnReady remaining ≠ [] := by
    intro hnil
    rw [hnil] at h
    simp at h
  rcases List.exists_mem_of_ne_nil _ hne with ⟨r, hr⟩
  unfold kahnReady at hr
  simp only [List.mem_map, List.mem_filter] at hr
  obtain ⟨p, ⟨hp, hpe⟩, hp1⟩ := hr
  unfold kahnNext
  rw [List.length_map]
  refine List.length_filter_lt_length_iff_exists.mpr ⟨p, hp, ?_⟩
  have hmem : p.1 ∈ kahnReady remaining := by
    unfold kahnReady
    simp only [List.mem_map, List.mem_filter]
    exact ⟨p, ⟨hp, hpe⟩, rfl⟩
  simp [hmem]

/-- The `while !remaining.is_empty()` loop of `execution_order`
(workflow.rs lines 316-344): repeatedly move dependency-free entries into the
result and delete them from the other entries; stop early on a cycle. -/
def kahnLoop (remaining : List (Nat × List Nat)) (result : List Nat) : List Nat :=
  if remaining.isEmpty then result
  else
    if h : (kahnReady remaining).isEmpty then result
    else
      kahnLoop (kahnNext remaining) (result ++ kahnReady remaining)
termination_by remaining.length
decreasing_by
  exact kahnNext_length_lt remaining (by simpa using h)

/-- `execution_order` (workflow.rs lines 295-345). -/
def Workflow.execution_order (w : Workflow) : List Nat :=
  kahnLoop w.build_dependencies []

/-! ## Streaming execution (nodes/model.rs `execute_model_node`) -/

/-- In-place mutation of the last element (`messages.last_mut()`);
the empty list is left unchanged. -/
def updateLast (f : ChatMessage → ChatMessage) : List ChatMessage → List ChatMessage
  | [] => []
  | [m] => [f m]
  | m :: rest => m :: updateLast f rest

/-- The per-chunk mutation of the current assistant turn
(model.rs lines 355-367): append the thinking fragment, if any, to the
thinking buffer; append a non-empty content fragment to the content buffer. -/
def applyChunkMsg (c : ChatMessage) (m : ChatMessage) : ChatMessage :=
  let m1 :=
    match c.thinking with
    | some thinking_chunk =>
        match m.thinking with
        | some existing => { m with thinking := some (existing ++ thinking_chunk) }
        | none => { m with thinking := some thinking_chunk }
    | none => m
  if c.content.isEmpty then m1 else { m1 with content := m1.content ++ c.content }

/-- One iteration of the `while let Some(message_chunk) = receiver.recv()`
loop (model.rs lines 352-370): only inside the Model-node guard
(`if let Some(NodeType::Model { messages, .. }) = ...get_mut(&node_id)...`)
and the `if let Some(last_msg) = messages.last_mut()` guard does the chunk
update the last assistant turn and extend the running `full_response`; the
running string — extended or not — is then published via
`update_node_output` on every chunk. -/
def Workflow.apply_chunk (w : Workflow) (node_id : Nat) (full_response : String)
    (c : ChatMessage) : Workflow × String :=
  let (w1, full2) :=
    match mfind? w.nodes node_id with
    | some n =>
      match n.node_type with
      | NodeType.model _ _ msgs _ =>
        if msgs.isEmpty then (w, full_response)
        else
          let w2 := { w with nodes := (mmodify w.nodes node_id (fun n2 =>
              match n2.node_type with
              | NodeType.model p2 mn2 msgs2 th2 =>
                  { n2 with node_type := (NodeType.model p2 mn2
                      (updateLast (applyChunkMsg c) msgs2) th2) }
              | _ => n2)) }
          let full3 := if c.content.isEmpty then full_response
            else full_response ++ c.content
          (w2, full3)
      | _ => (w, full_response)
    | none => (w, full_response)
  (w1.update_node_output node_id full2, full2)

/-- The fresh empty assistant turn pushed before the loop
(model.rs lines 341-349). -/
def Workflow.push_assistant_message (w : Workflow) (node_id : Nat) : Workflow :=
  { w with nodes := (mmodify w.nodes node_id (fun n =>
      match n.node_type with
      | NodeType.model p mn msgs th =>
          { n with node_type := (NodeType.model p mn
              (msgs ++ [{ role := MessageRole.assistant, content := "", thinking := none }]) th) }
      | _ => n)) }

/-- Folding `apply_chunk` over a chunk list, threading `full_response`. -/
def Workflow.run_chunks (w : Workflow) (node_id : Nat) (full_response : String)
    (chunks : List ChatMessage) : Workflow × String :=
  chunks.foldl (fun acc c => acc.1.apply_chunk node_id acc.2 c) (w, full_response)

/-- The whole successful-stream body of `execute_model_node`
(model.rs lines 341-374), with the received chunk sequence as parameter:
push a fresh assistant turn, fold the chunks, then clear `is_executing`. -/
def Workflow.execute_model_node_stream (w : Workflow) (node_id : Nat)
    (chunks : List ChatMessage) : Workflow :=
  let w1 := w.push_assistant_message node_id
  let w2 := (w1.run_chunks node_id "" chunks).1
  { w2 with nodes := (mmodify w2.nodes node_id (fun n => { n with is_executing := false })) }

/-- One iteration of the `for node_id in execution_order` loop of
`run_workflow` (main.rs lines 54-84).  The actual provider call is abstracted
as `ex`, which receives the state after `is_executing` is set, the node id and
the prepared prompt. -/
def runStep (ex : Workflow → Nat → List ChatMessage → Workflow)
    (w : Workflow) (node_id : Nat) : Workflow :=
  match mfind? w.nodes node_id with
  | none => w
  | some node =>
    match node.node_type with
    | NodeType.model _ _ _ _ =>
      let w1 := { w with nodes := (mmodify w.nodes node_id
          (fun n => { n with is_executing := true })) }
      match node.prepare_prompt with
      | Except.ok msgs => ex w1 node_id msgs
      | Except.error _ =>
          { w1 with nodes := (mmodify w1.nodes node_id
              (fun n => { n with is_executing := false })) }
    | _ => w

/-- `run_workflow` (main.rs lines 50-86): fetch the execution order once,
then run every node in sequence. -/
def run_workflow (ex : Workflow → Nat → List ChatMessage → Workflow)
    (w : Workflow) : Workflow :=
  w.execution_order.foldl (runStep ex) w

/-- `Workflow::default()` (workflow.rs lines 23-42). -/
def Workflow.dflt : Workflow :=
  let state : Workflow :=
    { nodes := []
      connections := []
      next_node_id := 0
      next_connection_id := 0
      selected_node_id := none
      dragging_node_id := none
      drawing_connection_state := ConnectionDrawingState.dflt }
  let (state, context_id) := state.add_node NodeType.prompt 50 100
  let (state, model_id) :=
    state.add_node (NodeType.model ProviderType.ollama "" [] false) 400 100
  let (state, _) := state.add_connection context_id model_id
  state

/-! ## Basic facts about the association-list maps -/

theorem mfind?_mmodify_self {α : Type} (m : List (Nat × α)) (k : Nat) (f : α → α) :
    mfind? (mmodify m k f) k = (mfind? m k).map f := by
  induction m with
  | nil => rfl
  | cons p rest ih =>
    obtain ⟨a, b⟩ := p
    by_cases h : a = k
    · rw [mmodify, if_pos h, mfind?, if_pos h, mfind?, if_pos h]
      rfl
    · rw [mmodify, if_neg h, mfind?, if_neg h, mfind?, if_neg h, ih]

theorem mfind?_mmodify_ne {α : Type} (m : List (Nat × α)) (k j : Nat) (f : α → α)
    (h : j ≠ k) : mfind? (mmodify m k f) j = mfind? m j := by
  induction m with
  | nil => rfl
  | cons p rest ih =>
    obtain ⟨a, b⟩ := p
    by_cases hp : a = k
    · rw [mmodify, if_pos hp, mfind?, if_neg (hp ▸ fun hc => h hc.symm), mfind?,
        if_neg (hp ▸ fun hc => h hc.symm), ih]
    · by_cases hj : a = j
      · rw [mmodify, if_neg hp, mfind?, if_pos hj, mfind?, if_pos hj]
      · rw [mmodify, if_neg hp, mfind?, if_neg hj, mfind?, if_neg hj, ih]

theorem mkeys_mmodify {α : Type} (m : List (Nat × α)) (k : Nat) (f : α → α) :
    mkeys (mmodify m k f) = mkeys m := by
  induction m with
  | nil => rfl
  | cons p rest ih =>
    obtain ⟨a, b⟩ := p
    by_cases h : a = k
    · rw [mmodify, if_pos h, mkeys, mkeys, List.map_cons, List.map_cons]
      exact congrArg _ ih
    · rw [mmodify, if_neg h, mkeys, mkeys, List.map_cons, List.map_cons]
      exact congrArg _ ih

theorem mmodify_mmodify_self {α : Type} (m : List (Nat × α)) (k : Nat) (f g : α → α) :
    mmodify (mmodify m k f) k g = mmodify m k (fun x => g (f x)) := by
  induction m with
  | nil => rfl
  | cons p rest ih =>
    obtain ⟨a, b⟩ := p
    by_cases h : a = k
    · rw [mmodify, if_pos h, mmodify, if_pos h, mmodify, if_pos h, ih]
    · rw [mmodify, if_neg h, mmodify, if_neg h, mmodify, if_neg h, ih]

theorem mfind?_eq_none_iff {α : Type} (m : List (Nat × α)) (k : Nat) :
    mfind? m k = none ↔ k ∉ mkeys m := by
  induction m with
  | nil => simp [mfind?, mkeys]
  | cons p rest ih =>
    obtain ⟨a, b⟩ := p
    by_cases h : a = k
    · rw [mfind?, if_pos h]
      simp [mkeys, h]
    · rw [mfind?, if_neg h]
      simp [mkeys, Ne.symm h, ← ih, mkeys] at ih ⊢
      exact ih

theorem mfind?_mem {α : Type} (m : List (Nat × α)) (k : Nat) (v : α)
    (h : mfind? m k = some v) : (k, v) ∈ m := by
  induction m with
  | nil => simp [mfind?] at h
  | cons p rest ih =>
    obtain ⟨a, b⟩ := p
    by_cases hp : a = k
    · rw [mfind?, if_pos hp] at h
      obtain rfl : b = v := Option.some.inj h
      rw [hp]
      exact List.mem_cons_self _ _
    · rw [mfind?, if_neg hp] at h
      exact List.mem_cons_of_mem _ (ih h)

theorem mem_mfind?_of_nodup {α : Type} (m : List (Nat × α)) (k : Nat) (v : α)
    (hnd : (mkeys m).Nodup) (h : (k, v) ∈ m) : mfind? m k = some v := by
  induction m with
  | nil => simp at h
  | cons p rest ih =>
    simp only [mkeys, List.map_cons, List.nodup_cons] at hnd
    rcases List.mem_cons.mp h with heq | hmem
    · rw [← heq]
      simp [mfind?]
    · have hk : p.1 ≠ k := by
        intro hc
        exact hnd.1 (hc ▸ (List.mem_map.mpr ⟨(k, v), hmem, rfl⟩))
      simp only [mfind?, if_neg hk]
      exact ih hnd.2 hmem

theorem mem_mkeys_iff {α : Type} (m : List (Nat × α)) (k : Nat) :
    k ∈ mkeys m ↔ ∃ v, (k, v) ∈ m := by
  constructor
  · intro h
    rcases List.mem_map.mp h with ⟨p, hp, hpk⟩
    exact ⟨p.2, by cases p; simp_all⟩
  · rintro ⟨v, hv⟩
    exact List.mem_map.mpr ⟨(k, v), hv, rfl⟩

theorem mcontains_iff {α : Type} (m : List (Nat × α)) (k : Nat) :
    mcontains m k = true ↔ k ∈ mkeys m := by
  simp [mcontains, List.any_eq_true, mkeys, List.mem_map]

/-! ## C4: self-loop rejection -/

/-- C4: for every graph state and every node id `n`, `add_connection n n`
returns the self-connection error and leaves the whole workflow record —
node map, connection map, id counters, selection, dragging and drawing
state — exactly unchanged. -/
theorem add_connection_self_loop_rejected (w : Workflow) (n : Nat) :
    w.add_connection n n = (w, Except.error ("Cannot connect a node to itself")) := by
  simp [Workflow.add_connection]

/-! ## C7: zoom-at-cursor keeps the world point under the cursor fixed -/

theorem clampRat_pos (x : Rat) : 0 < clampRat x (1/10) 10 := by
  unfold clampRat
  split
  · norm_num
  · split
    · norm_num
    · rename_i h1 _
      have : (1/10 : Rat) ≤ x := le_of_not_lt h1
      linarith

/-- C7: with positive zoom, the wheel handler sets
`newZoom = clamp(zoom * (1 + delta), 0.1, 10.0)` and
`newOffset = cursor - worldPointUnderCursor * newZoom` (world point computed
at the old zoom), and therefore the world point under the cursor is exactly
the same before and after the zoom change. -/
theorem zoom_at_cursor_fixes_world_point (s : CanvasState) (cx cy d : Rat)
    (hz : 0 < s.zoom) :
    (s.on_wheel cx cy d).zoom = clampRat (s.zoom * (1 + d)) (1/10) 10 ∧
    (s.on_wheel cx cy d).offset_x
      = cx - ((cx - s.offset_x) / s.zoom) * (s.on_wheel cx cy d).zoom ∧
    (s.on_wheel cx cy d).offset_y
      = cy - ((cy - s.offset_y) / s.zoom) * (s.on_wheel cx cy d).zoom ∧
    (s.on_wheel cx cy d).page_to_world_coords cx cy = s.page_to_world_coords cx cy := by
  have hnz : (0:Rat) < clampRat (s.zoom * (1 + d)) (1/10) 10 := clampRat_pos _
  refine ⟨rfl, rfl, rfl, ?_⟩
  unfold CanvasState.on_wheel CanvasState.page_to_world_coords
  simp only [Prod.mk.injEq]
  constructor
  · rw [sub_sub_cancel]
    exact mul_div_cancel_right₀ _ (ne_of_gt hnz)
  · rw [sub_sub_cancel]
    exact mul_div_cancel_right₀ _ (ne_of_gt hnz)

/-- A concrete canvas state, used to witness C7. -/
def canvasEx : CanvasState :=
  { offset_x := 3
    offset_y := 4
    zoom := 2
    dragging := false
    drag_start_x := 0
    drag_start_y := 0
    last_offset_x := 0
    last_offset_y := 0 }

/-- Witness for C7 at a concrete canvas state and wheel event. -/
theorem zoom_at_cursor_fixes_world_point_witness :
    (0:Rat) < canvasEx.zoom ∧
    (canvasEx.on_wheel 100 50 (1/2)).page_to_world_coords 100 50
      = canvasEx.page_to_world_coords 100 50 :=
  ⟨by norm_num [canvasEx],
    (zoom_at_cursor_fixes_world_point canvasEx 100 50 (1/2) (by norm_num [canvasEx])).2.2.2⟩

/-! ## C1: input aggregation -/

theorem length_insertPos (x : Rat × Rat × String) (l : List (Rat × Rat × String)) :
    (insertPos x l).length = l.length + 1 := by
  induction l with
  | nil => rfl
  | cons y ys ih =>
    rw [insertPos]
    by_cases h : posLe x y
    · rw [if_pos h]
      rfl
    · rw [if_neg h, List.length_cons, ih]
      rfl

theorem length_sortByPos (l : List (Rat × Rat × String)) :
    (sortByPos l).length = l.length := by
  induction l with
  | nil => rfl
  | cons x xs ih =>
    rw [sortByPos, length_insertPos, ih]
    exact (List.length_cons x xs).symm

/-- The spec-side description of the aggregated input: the `(y, x, output)`
triples of the connected sources that have an output, sorted ascending by
`(positionY, positionX)`, joined with a blank-line separator; `none` (not the
empty string) when there is no such source. -/
def claimAggregatedInput (w : Workflow) (t : Nat) : Option String :=
  match sortByPos (w.source_data t) with
  | [] => none
  | l => some (String.intercalate "\n\n" (l.map (fun p => p.2.2)))

/-- A concrete graph for the ordering law of C1: target node 4 receives from
sources at positions `(y, x) = (10, 0)`, `(10, 50)`, `(0, 0)` whose outputs
are `"A"`, `"B"`, `"C"`. -/
def wOrdering : Workflow :=
  { nodes :=
      [(1, { Node.new 1 NodeType.prompt 0 10 with output := some "A" }),
       (2, { Node.new 2 NodeType.prompt 50 10 with output := some "B" }),
       (3, { Node.new 3 NodeType.prompt 0 0 with output := some "C" }),
       (4, Node.new 4 (NodeType.model ProviderType.ollama "" [] false) 100 0)]
    connections :=
      [(0, { id := 0, from_node_id := 1, to_node_id := 4 }),
       (1, { id := 1, from_node_id := 2, to_node_id := 4 }),
       (2, { id := 2, from_node_id := 3, to_node_id := 4 })]
    next_node_id := 5
    next_connection_id := 3
    selected_node_id := none
    dragging_node_id := none
    drawing_connection_state := ConnectionDrawingState.dflt }

/-- C1: `update_node_input_from_all_sources` sets the target's input to
exactly the outputs of the connected sources that currently have an output
(sources without an output are skipped), sorted ascending by
`(positionY, positionX)`, joined with `"\n\n"`; zero such sources give
`none`, not the empty string; everything else in the workflow is unchanged.
On the concrete graph `wOrdering` the aggregated input is `"C\n\nA\n\nB"`. -/
theorem update_node_input_eq (w : Workflow) (t : Nat) :
    w.update_node_input_from_all_sources t
      = { w with nodes := (mmodify w.nodes t
            (fun n => { n with input := claimAggregatedInput w t })) } := by
  unfold Workflow.update_node_input_from_all_sources
  simp only
  congr 1
  · unfold claimAggregatedInput
    cases hsd : w.source_data t with
    | nil => simp [sortByPos]
    | cons x xs =>
      have hlen : (sortByPos (x :: xs)).length = xs.length + 1 := length_sortByPos _
      cases hs : sortByPos (x :: xs) with
      | nil => simp [hs] at hlen
      | cons y ys => simp

theorem update_input_from_sources_spec (w : Workflow) (t : Nat) :
    (w.update_node_input_from_all_sources t
      = { w with nodes := (mmodify w.nodes t
            (fun n => { n with input := claimAggregatedInput w t })) }) ∧
    (mfind? (wOrdering.update_node_input_from_all_sources 4).nodes 4).map Node.input
      = some (some ("C\n\nA\n\nB")) :=
  ⟨update_node_input_eq w t, by decide⟩

/-! ## C5: cascading removal -/

/-- A concrete graph for the cascade law of C5: nodes `{1, 2, 3}` with
connections `1 → 2` and `2 → 3`. -/
def wCascade : Workflow :=
  { nodes :=
      [(1, Node.new 1 NodeType.prompt 0 0),
       (2, Node.new 2 NodeType.prompt 10 0),
       (3, Node.new 3 NodeType.prompt 20 0)]
    connections :=
      [(0, { id := 0, from_node_id := 1, to_node_id := 2 }),
       (1, { id := 1, from_node_id := 2, to_node_id := 3 })]
    next_node_id := 4
    next_connection_id := 2
    selected_node_id := none
    dragging_node_id := none
    drawing_connection_state := ConnectionDrawingState.dflt }

/-- C5: `remove_node id` removes exactly the node keyed `id` and every
connection touching `id`, clears `selected_node_id` / `dragging_node_id`
exactly when they referenced `id`, resets an active connection draw whose
source is `id`, and changes nothing else (id counters included).  On the
concrete graph `wCascade`, `remove_node 2` leaves zero connections and
exactly the nodes `{1, 3}`. -/
theorem remove_node_parts (w : Workflow) (id : Nat) :
    (w.remove_node id).nodes = merase w.nodes id ∧
    (w.remove_node id).connections
      = w.connections.filter (fun p => p.2.from_node_id != id && p.2.to_node_id != id) ∧
    (w.remove_node id).selected_node_id
      = (if w.selected_node_id = some id then none else w.selected_node_id) ∧
    (w.remove_node id).dragging_node_id
      = (if w.dragging_node_id = some id then none else w.dragging_node_id) ∧
    (w.remove_node id).drawing_connection_state
      = (if w.drawing_connection_state.active ∧ w.drawing_connection_state.source_node_id = id
         then ConnectionDrawingState.dflt else w.drawing_connection_state) ∧
    (w.remove_node id).next_node_id = w.next_node_id ∧
    (w.remove_node id).next_connection_id = w.next_connection_id := by
  refine ⟨?_, ?_, ?_, ?_, ?_, ?_, ?_⟩ <;>
    · simp only [Workflow.remove_node, Workflow.cancel_drawing_connection]
      split_ifs <;> simp_all

theorem remove_node_spec (w : Workflow) (id : Nat) :
    (w.remove_node id).nodes = merase w.nodes id ∧
    (w.remove_node id).connections
      = w.connections.filter (fun p => p.2.from_node_id != id && p.2.to_node_id != id) ∧
    (w.remove_node id).selected_node_id
      = (if w.selected_node_id = some id then none else w.selected_node_id) ∧
    (w.remove_node id).dragging_node_id
      = (if w.dragging_node_id = some id then none else w.dragging_node_id) ∧
    (w.remove_node id).drawing_connection_state
      = (if w.drawing_connection_state.active ∧ w.drawing_connection_state.source_node_id = id
         then ConnectionDrawingState.dflt else w.drawing_connection_state) ∧
    (w.remove_node id).next_node_id = w.next_node_id ∧
    (w.remove_node id).next_connection_id = w.next_connection_id ∧
    ((wCascade.remove_node 2).connections = [] ∧
      mkeys (wCascade.remove_node 2).nodes = [1, 3]) := by
  obtain ⟨h1, h2, h3, h4, h5, h6, h7⟩ := remove_node_parts w id
  exact ⟨h1, h2, h3, h4, h5, h6, h7, by decide⟩

/-! ## Frame lemmas for output propagation -/

/-- All node fields except the two that `propagate_step` writes
(`input` and `needs_execution`). -/
def nodeCore (n : Node) :
    Nat × NodeType × Rat × Rat × Rat × Rat × String × Option String × Rat × Rat × Bool × Bool :=
  (n.id, n.node_type, n.position_x, n.position_y, n.width, n.height, n.title,
    n.output, n.drag_offset_x, n.drag_offset_y, n.is_maximized, n.is_executing)

theorem mfind?_map_mmodify {α β : Type} (g : α → β) (m : List (Nat × α)) (k : Nat)
    (f : α → α) (hf : ∀ v, g (f v) = g v) (j : Nat) :
    (mfind? (mmodify m k f) j).map g = (mfind? m j).map g := by
  by_cases h : j = k
  · subst h
    rw [mfind?_mmodify_self, Option.map_map]
    exact congrArg (fun gg => Option.map gg (mfind? m j)) (funext hf)
  · rw [mfind?_mmodify_ne _ _ _ _ h]

/-- The non-`nodes` fields of the workflow, bundled. -/
def wframe (w : Workflow) :
    List (Nat × Connection) × Nat × Nat × Option Nat × Option Nat × ConnectionDrawingState :=
  (w.connections, w.next_node_id, w.next_connection_id, w.selected_node_id,
    w.dragging_node_id, w.drawing_connection_state)

theorem propagate_step_frame (acc : Workflow) (t : Nat) :
    wframe (acc.propagate_step t) = wframe acc := by
  rw [Workflow.propagate_step, update_node_input_eq]
  rfl

theorem propagate_step_core (acc : Workflow) (t j : Nat) :
    (mfind? (acc.propagate_step t).nodes j).map nodeCore
      = (mfind? acc.nodes j).map nodeCore := by
  rw [Workflow.propagate_step, update_node_input_eq]
  simp only
  rw [mmodify_mmodify_self]
  apply mfind?_map_mmodify
  intro v
  rfl

theorem foldl_propagate_frame (ts : List Nat) (acc : Workflow) :
    wframe (ts.foldl Workflow.propagate_step acc) = wframe acc := by
  induction ts generalizing acc with
  | nil => rfl
  | cons t ts ih => rw [List.foldl_cons, ih, propagate_step_frame]

theorem foldl_propagate_core (ts : List Nat) (acc : Workflow) (j : Nat) :
    (mfind? ((ts.foldl Workflow.propagate_step acc).nodes) j).map nodeCore
      = (mfind? acc.nodes j).map nodeCore := by
  induction ts generalizing acc with
  | nil => rfl
  | cons t ts ih => rw [List.foldl_cons, ih, propagate_step_core]

theorem propagate_frame (w : Workflow) (src : Nat) :
    wframe (w.propagate_output_to_connected_nodes src) = wframe w :=
  foldl_propagate_frame _ w

theorem propagate_core (w : Workflow) (src j : Nat) :
    (mfind? ((w.propagate_output_to_connected_nodes src).nodes) j).map nodeCore
      = (mfind? w.nodes j).map nodeCore :=
  foldl_propagate_core _ w j

theorem update_node_output_frame (w : Workflow) (id : Nat) (s : String) :
    wframe (w.update_node_output id s) = wframe w := by
  rw [Workflow.update_node_output]
  exact propagate_frame _ _

/-- After `update_node_output id s`, the node keyed `id` (when present)
reports output `some s`. -/
theorem update_node_output_output (w : Workflow) (id : Nat) (s : String) :
    (mfind? (w.update_node_output id s).nodes id).map Node.output
      = (mfind? w.nodes id).map (fun _ => some s) := by
  rw [Workflow.update_node_output]
  have hcore := propagate_core
    { w with nodes := (mmodify w.nodes id
        (fun node => { node with output := some s, needs_execution := false })) } id id
  have houtput := congrArg (fun o => o.map
      (fun c : Nat × NodeType × Rat × Rat × Rat × Rat × String × Option String ×
        Rat × Rat × Bool × Bool => c.2.2.2.2.2.2.2.1)) hcore
  simp only [Option.map_map] at houtput
  rw [show ((fun c : Nat × NodeType × Rat × Rat × Rat × Rat × String × Option String ×
        Rat × Rat × Bool × Bool => c.2.2.2.2.2.2.2.1) ∘ nodeCore) = Node.output from rfl] at houtput
  rw [houtput]
  simp only [mfind?_mmodify_self, Option.map_map]
  rfl

/-- After `update_node_output id s`, every node keeps its `node_type`
(so chat histories are untouched by output propagation). -/
theorem update_node_output_node_type (w : Workflow) (id : Nat) (s : String) (j : Nat) :
    (mfind? (w.update_node_output id s).nodes j).map Node.node_type
      = (mfind? w.nodes j).map Node.node_type := by
  rw [Workflow.update_node_output]
  have hcore := propagate_core
    { w with nodes := (mmodify w.nodes id
        (fun node => { node with output := some s, needs_execution := false })) } id j
  have hnt := congrArg (fun o => o.map
      (fun c : Nat × NodeType × Rat × Rat × Rat × Rat × String × Option String ×
        Rat × Rat × Bool × Bool => c.2.1)) hcore
  simp only [Option.map_map] at hnt
  rw [show ((fun c : Nat × NodeType × Rat × Rat × Rat × Rat × String × Option String ×
        Rat × Rat × Bool × Bool => c.2.1) ∘ nodeCore) = Node.node_type from rfl] at hnt
  rw [hnt]
  apply mfind?_map_mmodify
  intro v
  rfl

/-! ## C6: prompt preparation and the empty-prompt error path -/

/-- The synthetic leading user turn of `prepare_prompt`
(nodes/mod.rs lines 146-155): present exactly when the node's input is
present and non-blank after trimming. -/
def leadingUserTurn (n : Node) : List ChatMessage :=
  match n.input with
  | some input =>
      if input.trim.isEmpty then []
      else [{ role := MessageRole.user, content := input, thinking := none }]
  | none => []

theorem prepare_prompt_eq (n : Node) (prov : ProviderType) (mn : String)
    (msgs : List ChatMessage) (th : Bool)
    (h : n.node_type = NodeType.model prov mn msgs th) :
    n.prepare_prompt =
      (if (leadingUserTurn n ++ msgs).isEmpty then
        Except.error ("No input or messages provided to model")
      else Except.ok (leadingUserTurn n ++ msgs)) := by
  unfold Node.prepare_prompt leadingUserTurn
  rw [h]

theorem mmodify_congr {α : Type} (m : List (Nat × α)) (k : Nat) (f g : α → α)
    (h : ∀ v, f v = g v) : mmodify m k f = mmodify m k g := by
  induction m with
  | nil => rfl
  | cons p rest ih =>
    obtain ⟨a, b⟩ := p
    by_cases hp : a = k
    · rw [mmodify, if_pos hp, mmodify, if_pos hp, h, ih]
    · rw [mmodify, if_neg hp, mmodify, if_neg hp, ih]

/-- A fresh Ollama model node: no input, empty chat history. -/
def modelNodeEx : Node := Node.new 1 (NodeType.model ProviderType.ollama "" [] false) 0 0

/-- A workflow holding only `modelNodeEx`, to witness C6. -/
def wEmptyModel : Workflow :=
  { nodes := [(1, modelNodeEx)]
    connections := []
    next_node_id := 2
    next_connection_id := 0
    selected_node_id := none
    dragging_node_id := none
    drawing_connection_state := ConnectionDrawingState.dflt }

/-- C6: for a Model node, `prepare_prompt` returns the synthetic leading
user turn (present exactly when the input is present and non-blank after
trimming) followed by the stored chat history, and errors exactly when both
are empty; when a scheduled run (`runStep`, main.rs lines 54-84) hits this
error, the node ends with `is_executing = false` and its `needs_execution`
flag untouched, and nothing else in the workflow changes, while
`run_workflow` simply folds `runStep` over the rest of the order. -/
theorem prepare_prompt_and_skip_spec :
    (∀ (n : Node) (prov : ProviderType) (mn : String) (msgs : List ChatMessage) (th : Bool),
      n.node_type = NodeType.model prov mn msgs th →
      ((∃ e, n.prepare_prompt = Except.error e) ↔ (leadingUserTurn n = [] ∧ msgs = [])) ∧
      (¬(leadingUserTurn n = [] ∧ msgs = []) →
        n.prepare_prompt = Except.ok (leadingUserTurn n ++ msgs))) ∧
    (∀ (ex : Workflow → Nat → List ChatMessage → Workflow) (w : Workflow)
        (id : Nat) (node : Node),
      mfind? w.nodes id = some node →
      (∃ prov mn msgs th, node.node_type = NodeType.model prov mn msgs th) →
      (∃ e, node.prepare_prompt = Except.error e) →
      runStep ex w id
        = { w with nodes := (mmodify w.nodes id (fun n => { n with is_executing := false })) } ∧
      (mfind? (runStep ex w id).nodes id).map Node.is_executing = some false ∧
      (mfind? (runStep ex w id).nodes id).map Node.needs_execution
        = some node.needs_execution) ∧
    (∀ (ex : Workflow → Nat → List ChatMessage → Workflow) (w : Workflow),
      run_workflow ex w = w.execution_order.foldl (runStep ex) w) := by
  refine ⟨?_, ?_, fun ex w => rfl⟩
  · intro n prov mn msgs th h
    rw [prepare_prompt_eq n prov mn msgs th h]
    by_cases he : (leadingUserTurn n ++ msgs).isEmpty
    · rw [if_pos he]
      have hnil := List.isEmpty_iff.mp he
      rw [List.append_eq_nil] at hnil
      exact ⟨⟨fun _ => hnil, fun _ => ⟨_, rfl⟩⟩, fun hc => absurd hnil hc⟩
    · rw [if_neg he]
      constructor
      · constructor
        · rintro ⟨e, hcontra⟩
          cases hcontra
        · intro hnil
          have : (leadingUserTurn n ++ msgs).isEmpty = true := by
            rw [List.isEmpty_iff, List.append_eq_nil]
            exact hnil
          exact absurd this he
      · intro _
        rfl
  · intro ex w id node hfind hmodel herr
    obtain ⟨prov, mn, msgs, th, hnt⟩ := hmodel
    obtain ⟨e, he⟩ := herr
    have hstep : runStep ex w id
        = { w with nodes := (mmodify w.nodes id (fun n => { n with is_executing := false })) } := by
      rw [runStep, hfind]
      simp only [hnt]
      rw [he]
      simp only
      rw [mmodify_mmodify_self]
    refine ⟨hstep, ?_, ?_⟩
    · rw [hstep]
      simp only
      rw [mfind?_mmodify_self, hfind]
      rfl
    · rw [hstep]
      simp only
      rw [mfind?_mmodify_self, hfind]
      rfl

/-- Witness for C6: `runStep` on the fresh model node (no input, no stored
history) clears `is_executing` and keeps `needs_execution` set. -/
theorem prepare_prompt_and_skip_spec_witness :
    (mfind? (runStep (fun w _ _ => w) wEmptyModel 1).nodes 1).map Node.is_executing
      = some false ∧
    (mfind? (runStep (fun w _ _ => w) wEmptyModel 1).nodes 1).map Node.needs_execution
      = some true :=
  ⟨(prepare_prompt_and_skip_spec.2.1 (fun w _ _ => w) wEmptyModel 1 modelNodeEx rfl
      ⟨ProviderType.ollama, "", [], false, rfl⟩
      ⟨"No input or messages provided to model", rfl⟩).2.1,
   (prepare_prompt_and_skip_spec.2.1 (fun w _ _ => w) wEmptyModel 1 modelNodeEx rfl
      ⟨ProviderType.ollama, "", [], false, rfl⟩
      ⟨"No input or messages provided to model", rfl⟩).2.2⟩

/-! ## C3: streaming accumulation -/

theorem updateLast_append (f : ChatMessage → ChatMessage) (l : List ChatMessage)
    (m : ChatMessage) : updateLast f (l ++ [m]) = l ++ [f m] := by
  induction l with
  | nil => rfl
  | cons x l ih =>
    cases l with
    | nil => rfl
    | cons y ys =>
      show x :: updateLast f ((y :: ys) ++ [m]) = x :: ((y :: ys) ++ [f m])
      rw [ih]

theorem content_ite (full : String) (c : ChatMessage) :
    (if c.content.isEmpty then full else full ++ c.content) = full ++ c.content := by
  by_cases hc : c.content.isEmpty
  · rw [if_pos hc, (String.isEmpty_iff _).mp hc]
    simp
  · rw [if_neg hc]

theorem applyChunkMsg_content (c m : ChatMessage) :
    (applyChunkMsg c m).content = m.content ++ c.content := by
  unfold applyChunkMsg
  by_cases hc : c.content.isEmpty
  · have hcc : c.content = "" := (String.isEmpty_iff _).mp hc
    cases hct : c.thinking <;> cases hmt : m.thinking <;> simp [hct, hmt, hc] <;> simp [hcc]
  · cases hct : c.thinking <;> cases hmt : m.thinking <;> simp [hct, hmt, hc]

theorem applyChunkMsg_thinking (c m : ChatMessage) :
    (applyChunkMsg c m).thinking
      = (match c.thinking with
         | none => m.thinking
         | some t => some ((m.thinking.getD "") ++ t)) := by
  unfold applyChunkMsg
  cases hct : c.thinking <;> cases hmt : m.thinking <;>
    by_cases hc : c.content.isEmpty <;> simp [hct, hmt, hc]

/-- When the Model-node and current-assistant-turn guards hold, one loop
iteration rewrites the last turn, extends the running string by the content
fragment and publishes it. -/
theorem apply_chunk_guarded (w : Workflow) (id : Nat) (full : String) (c : ChatMessage)
    (n : Node) (prov : ProviderType) (mn : String) (msgs : List ChatMessage) (th : Bool)
    (hn : mfind? w.nodes id = some n)
    (hnt : n.node_type = NodeType.model prov mn msgs th)
    (hne : msgs.isEmpty = false) :
    w.apply_chunk id full c
      = (({ w with nodes := (mmodify w.nodes id (fun n2 =>
            match n2.node_type with
            | NodeType.model p2 mn2 msgs2 th2 =>
                { n2 with node_type := (NodeType.model p2 mn2
                    (updateLast (applyChunkMsg c) msgs2) th2) }
            | _ => n2)) }).update_node_output id (full ++ c.content),
          full ++ c.content) := by
  unfold Workflow.apply_chunk
  simp only [hn, hnt, hne, Bool.false_eq_true, if_false]
  rw [content_ite]

/-- When a guard fails — the node is not a Model, or its chat history is
empty — the iteration republishes the running string unchanged. -/
theorem apply_chunk_skipped (w : Workflow) (id : Nat) (full : String) (c : ChatMessage)
    (n : Node) (hn : mfind? w.nodes id = some n)
    (hskip : ∀ prov mn msgs th, n.node_type = NodeType.model prov mn msgs th →
      msgs.isEmpty = true) :
    w.apply_chunk id full c = (w.update_node_output id full, full) := by
  unfold Workflow.apply_chunk
  cases hnt : n.node_type with
  | model prov mn msgs th =>
    have hm : msgs.isEmpty = true := hskip prov mn msgs th hnt
    simp only [hn, hnt, hm, if_true, eq_self_iff_true]
  | prompt => simp only [hn, hnt]
  | fileImport fp fn => simp only [hn, hnt]
  | fileExport fp fn ft => simp only [hn, hnt]

/-- The chunk sequence of the C3 example:
`{content:"Hel"}, {content:"lo"}, {thinking:"t1"}`. -/
def chunksEx : List ChatMessage :=
  [{ role := MessageRole.assistant, content := "Hel", thinking := none },
   { role := MessageRole.assistant, content := "lo", thinking := none },
   { role := MessageRole.assistant, content := "", thinking := some "t1" }]

/-- C3: whenever the node holds a current assistant turn (Model node with a
non-empty chat history, the state the stream loop establishes before its
first chunk), each chunk extends the running output string by its content
fragment, publishes the extended string as the node's output, and rewrites
the current (last) assistant turn by appending the content fragment to the
turn's content and the thinking fragment to the turn's thinking buffer;
whenever the node is present at all, the running output string is published
as the node's output after every chunk.  On the concrete sequence `chunksEx`
fed to the fresh model node, the outputs observed after each chunk are
`"Hel"`, `"Hello"`, `"Hello"`, and the final assistant turn has content
`"Hello"` and thinking `"t1"`. -/
theorem streaming_accumulation_spec :
    (∀ (w : Workflow) (id : Nat) (full : String) (c : ChatMessage)
        (n : Node) (prov : ProviderType) (mn : String) (l : List ChatMessage)
        (m : ChatMessage) (th : Bool),
      mfind? w.nodes id = some n →
      n.node_type = NodeType.model prov mn (l ++ [m]) th →
      (w.apply_chunk id full c).2 = full ++ c.content ∧
      (mfind? (w.apply_chunk id full c).1.nodes id).map Node.output
        = some (some (full ++ c.content)) ∧
      (mfind? (w.apply_chunk id full c).1.nodes id).map Node.node_type
        = some (NodeType.model prov mn (l ++ [applyChunkMsg c m]) th)) ∧
    (∀ (w : Workflow) (id : Nat) (full : String) (c : ChatMessage),
      (mfind? w.nodes id).isSome = true →
      (mfind? (w.apply_chunk id full c).1.nodes id).map Node.output
        = some (some ((w.apply_chunk id full c).2))) ∧
    (∀ (c m : ChatMessage),
      (applyChunkMsg c m).content = m.content ++ c.content ∧
      (applyChunkMsg c m).thinking
        = (match c.thinking with
           | none => m.thinking
           | some t => some ((m.thinking.getD "") ++ t))) ∧
    ((mfind? (((wEmptyModel.push_assistant_message 1).run_chunks 1 ""
        (chunksEx.take 1)).1).nodes 1).map Node.output = some (some "Hel") ∧
     (mfind? (((wEmptyModel.push_assistant_message 1).run_chunks 1 ""
        (chunksEx.take 2)).1).nodes 1).map Node.output = some (some "Hello") ∧
     (mfind? (((wEmptyModel.push_assistant_message 1).run_chunks 1 ""
        chunksEx).1).nodes 1).map Node.output = some (some "Hello") ∧
     (mfind? (wEmptyModel.execute_model_node_stream 1 chunksEx).nodes 1).map Node.node_type
        = some (NodeType.model ProviderType.ollama ""
            [{ role := MessageRole.assistant, content := "Hello", thinking := some "t1" }]
            false)) := by
  refine ⟨?_, ?_, fun c m => ⟨applyChunkMsg_content c m,
    applyChunkMsg_thinking c m⟩, by decide, by decide, by decide, by decide⟩
  · intro w id full c n prov mn l m th hn hnt
    have hg := apply_chunk_guarded w id full c n prov mn (l ++ [m]) th hn hnt (by simp)
    refine ⟨by rw [hg], ?_, ?_⟩
    · rw [hg]
      simp only
      rw [update_node_output_output, mfind?_mmodify_self, hn]
      rfl
    · rw [hg]
      simp only
      rw [update_node_output_node_type, mfind?_mmodify_self, hn]
      simp only [Option.map_some']
      rw [hnt]
      simp only
      rw [updateLast_append]
  · intro w id full c hsome
    obtain ⟨n, hn⟩ := Option.isSome_iff_exists.mp hsome
    cases hnt : n.node_type with
    | model prov mn msgs th =>
      by_cases hm : msgs.isEmpty = true
      · have hred := apply_chunk_skipped w id full c n hn
          (fun p2 m2 msgs2 t2 h2 => by
            rw [hnt] at h2
            cases h2
            exact hm)
        rw [hred]
        simp only
        rw [update_node_output_output, hn]
        rfl
      · have hg := apply_chunk_guarded w id full c n prov mn msgs th hn hnt
          (by simpa using hm)
        rw [hg]
        simp only
        rw [update_node_output_output, mfind?_mmodify_self, hn]
        rfl
    | prompt =>
      have hred := apply_chunk_skipped w id full c n hn
        (fun p2 m2 msgs2 t2 h2 => by rw [hnt] at h2; cases h2)
      rw [hred]
      simp only
      rw [update_node_output_output, hn]
      rfl
    | fileImport fp fn =>
      have hred := apply_chunk_skipped w id full c n hn
        (fun p2 m2 msgs2 t2 h2 => by rw [hnt] at h2; cases h2)
      rw [hred]
      simp only
      rw [update_node_output_output, hn]
      rfl
    | fileExport fp fn ft =>
      have hred := apply_chunk_skipped w id full c n hn
        (fun p2 m2 msgs2 t2 h2 => by rw [hnt] at h2; cases h2)
      rw [hred]
      simp only
      rw [update_node_output_output, hn]
      rfl

/-- The fresh model node after the stream pushed its empty assistant turn. -/
def pushedNodeEx : Node :=
  { modelNodeEx with node_type := (NodeType.model ProviderType.ollama ""
      [{ role := MessageRole.assistant, content := "", thinking := none }] false) }

/-- Witness for C3: with the assistant turn in place, the first chunk
extends the running string. -/
theorem streaming_accumulation_spec_witness :
    ((wEmptyModel.push_assistant_message 1).apply_chunk 1 ""
        { role := MessageRole.assistant, content := "Hel", thinking := none }).2
      = "" ++ "Hel" :=
  (streaming_accumulation_spec.1 (wEmptyModel.push_assistant_message 1) 1 ""
    { role := MessageRole.assistant, content := "Hel", thinking := none }
    pushedNodeEx ProviderType.ollama "" []
    { role := MessageRole.assistant, content := "", thinking := none } false
    (by decide) (by decide)).1

/-! ## C10: endpoint existence is never checked -/

theorem mmodify_not_mem {α : Type} (m : List (Nat × α)) (k : Nat) (f : α → α)
    (h : k ∉ mkeys m) : mmodify m k f = m := by
  induction m with
  | nil => rfl
  | cons p rest ih =>
    obtain ⟨a, b⟩ := p
    simp only [mkeys, List.map_cons, List.mem_cons] at h
    push_neg at h
    rw [mmodify, if_neg (Ne.symm h.1), ih (by simpa [mkeys] using h.2)]

/-- A workflow whose only node is keyed 5 and does not need execution; the
source id 7 is absent.  Used against the no-op part of C10. -/
def wMissingSource : Workflow :=
  { nodes := [(5, { Node.new 5 NodeType.prompt 0 0 with needs_execution := false })]
    connections := []
    next_node_id := 6
    next_connection_id := 0
    selected_node_id := none
    dragging_node_id := none
    drawing_connection_state := ConnectionDrawingState.dflt }

/-- Counterexample to C10 as stated: when the source endpoint (7) is absent
but the target (5) is present, `add_connection 7 5` still flips the target's
`needs_execution` from `false` to `true` — the needsExecution marking is not
a no-op in this "from or to is not a key" case. -/
theorem add_connection_missing_endpoint_counterexample :
    (7 : Nat) ≠ 5 ∧
    mcontains wMissingSource.nodes 7 = false ∧
    mcontains wMissingSource.nodes 5 = true ∧
    (mfind? wMissingSource.nodes 5).map Node.needs_execution = some false ∧
    (mfind? ((wMissingSource.add_connection 7 5).1).nodes 5).map Node.needs_execution
      = some true := by
  decide

/-- C10 (amended): `add_connection` errors exactly on self-loops; for
`f ≠ t` it returns Ok and inserts the connection without checking that
either endpoint exists.  When the *target* is not a key, the input
recomputation and needsExecution marking are no-ops (the node map is
unchanged); when the target is present it is recomputed and marked
`needs_execution` even if the source is absent.  `complete_drawing_connection`
checks only that the source still exists, never the hovered target, so
completing a drag whose target was removed mid-drag still inserts a
connection referencing the deleted id. -/
theorem add_connection_endpoints_unchecked_spec :
    (∀ (w : Workflow) (f t : Nat),
      (∃ e, (w.add_connection f t).2 = Except.error e) ↔ f = t) ∧
    (∀ (w : Workflow) (f t : Nat), f ≠ t →
      (w.add_connection f t).2 = Except.ok w.next_connection_id ∧
      ((w.add_connection f t).1).connections
        = minsert w.connections w.next_connection_id
            { id := w.next_connection_id, from_node_id := f, to_node_id := t } ∧
      ((w.add_connection f t).1).next_connection_id = w.next_connection_id + 1) ∧
    (∀ (w : Workflow) (f t : Nat), f ≠ t → mcontains w.nodes t = false →
      ((w.add_connection f t).1).nodes = w.nodes) ∧
    (∀ (w : Workflow) (f t : Nat), f ≠ t → mcontains w.nodes t = true →
      (mfind? ((w.add_connection f t).1).nodes t).map Node.needs_execution = some true) ∧
    (∀ (w : Workflow) (target_id : Nat),
      w.drawing_connection_state.target_node_id = some target_id →
      mcontains w.nodes w.drawing_connection_state.source_node_id = true →
      w.drawing_connection_state.source_node_id ≠ target_id →
      (w.complete_drawing_connection).2 = some (Except.ok w.next_connection_id) ∧
      ((w.complete_drawing_connection).1).connections
        = minsert w.connections w.next_connection_id
            { id := w.next_connection_id
              from_node_id := w.drawing_connection_state.source_node_id
              to_node_id := target_id }) := by
  have hconn : ∀ (w : Workflow) (f t : Nat), f ≠ t →
      (w.add_connection f t).2 = Except.ok w.next_connection_id ∧
      ((w.add_connection f t).1).connections
        = minsert w.connections w.next_connection_id
            { id := w.next_connection_id, from_node_id := f, to_node_id := t } ∧
      ((w.add_connection f t).1).next_connection_id = w.next_connection_id + 1 := by
    intro w f t hft
    unfold Workflow.add_connection
    rw [if_neg hft]
    simp only
    rw [update_node_input_eq]
    refine ⟨?_, ?_, ?_⟩ <;> trivial
  refine ⟨?_, hconn, ?_, ?_, ?_⟩
  · intro w f t
    constructor
    · rintro ⟨e, he⟩
      by_contra hft
      rw [(hconn w f t hft).1] at he
      cases he
    · intro hft
      refine ⟨"Cannot connect a node to itself", ?_⟩
      unfold Workflow.add_connection
      rw [if_pos hft]
  · intro w f t hft habs
    unfold Workflow.add_connection
    rw [if_neg hft]
    simp only
    rw [update_node_input_eq]
    simp only
    have hnot : t ∉ mkeys w.nodes := by
      intro hmem
      rw [(mcontains_iff w.nodes t).mpr hmem] at habs
      cases habs
    rw [mmodify_not_mem _ _ _ hnot, mmodify_not_mem _ _ _ hnot]
  · intro w f t hft hpres
    unfold Workflow.add_connection
    rw [if_neg hft]
    simp only
    rw [update_node_input_eq]
    simp only
    rw [mmodify_mmodify_self, mfind?_mmodify_self]
    have hmem : t ∈ mkeys w.nodes := (mcontains_iff w.nodes t).mp hpres
    rcases (mem_mkeys_iff w.nodes t).mp hmem with ⟨v, hv⟩
    rcases Option.isSome_iff_exists.mp (Option.isSome_iff_ne_none.mpr
      (fun hnone => ((mfind?_eq_none_iff w.nodes t).mp hnone) hmem)) with ⟨n, hn⟩
    rw [hn]
    rfl
  · intro w target_id htgt hsrc hne
    unfold Workflow.complete_drawing_connection
    rw [htgt]
    simp only [hsrc, if_true]
    have h := hconn w w.drawing_connection_state.source_node_id target_id hne
    refine ⟨?_, ?_⟩
    · simp only [h.1]
    · exact h.2.1

/-- Witness for C10 (amended) at the concrete workflow `wMissingSource`:
inserting `7 → 5` succeeds although node 7 does not exist. -/
theorem add_connection_endpoints_unchecked_spec_witness :
    (wMissingSource.add_connection 7 5).2 = Except.ok 0 :=
  (add_connection_endpoints_unchecked_spec.2.1 wMissingSource 7 5 (by decide)).1

/-! ## C8: one-hop output propagation -/

/-- The `(position_y, position_x, output)` view of a node — exactly the data
`source_data` reads from a source node. -/
def sview (w : Workflow) (id : Nat) : Option (Rat × Rat × Option String) :=
  (mfind? w.nodes id).map (fun n => (n.position_y, n.position_x, n.output))

theorem core_to_sview (a b : Workflow) (j : Nat)
    (h : (mfind? a.nodes j).map nodeCore = (mfind? b.nodes j).map nodeCore) :
    sview a j = sview b j := by
  have h2 := congrArg (fun o => o.map
      (fun c : Nat × NodeType × Rat × Rat × Rat × Rat × String × Option String ×
        Rat × Rat × Bool × Bool => (c.2.2.2.1, c.2.2.1, c.2.2.2.2.2.2.2.1))) h
  simp only [Option.map_map] at h2
  exact h2

theorem source_data_congr (a b : Workflow) (t : Nat)
    (hconn : a.connections = b.connections)
    (hview : ∀ id, sview a id = sview b id) :
    a.source_data t = b.source_data t := by
  unfold Workflow.source_data
  rw [hconn]
  refine List.filterMap_congr ?_
  intro conn _
  by_cases hct : conn.to_node_id = t
  · rw [if_pos hct, if_pos hct]
    have hv := hview conn.from_node_id
    unfold sview at hv
    cases ha : mfind? a.nodes conn.from_node_id with
    | none =>
      rw [ha] at hv
      cases hb : mfind? b.nodes conn.from_node_id with
      | none => rfl
      | some nb =>
        rw [hb] at hv
        cases hv
    | some na =>
      rw [ha] at hv
      cases hb : mfind? b.nodes conn.from_node_id with
      | none =>
        rw [hb] at hv
        cases hv
      | some nb =>
        rw [hb] at hv
        simp only [Option.map_some', Option.some.injEq, Prod.mk.injEq] at hv
        simp only [Option.some_bind]
        rw [hv.1, hv.2.1, hv.2.2]
  · rw [if_neg hct, if_neg hct]

theorem claimAggregatedInput_congr (a b : Workflow) (t : Nat)
    (hconn : a.connections = b.connections)
    (hview : ∀ id, sview a id = sview b id) :
    claimAggregatedInput a t = claimAggregatedInput b t := by
  unfold claimAggregatedInput
  rw [source_data_congr a b t hconn hview]

/-- The exact rewrite `propagate_step` performs on the target node. -/
theorem propagate_step_find_self (acc : Workflow) (t : Nat) :
    mfind? (acc.propagate_step t).nodes t
      = (mfind? acc.nodes t).map
          (fun n => { n with input := claimAggregatedInput acc t, needs_execution := true }) := by
  rw [Workflow.propagate_step, update_node_input_eq]
  simp only
  rw [mmodify_mmodify_self, mfind?_mmodify_self]

theorem propagate_step_find_ne (acc : Workflow) (t j : Nat) (h : j ≠ t) :
    mfind? (acc.propagate_step t).nodes j = mfind? acc.nodes j := by
  rw [Workflow.propagate_step, update_node_input_eq]
  simp only
  rw [mmodify_mmodify_self, mfind?_mmodify_ne _ _ _ _ h]

theorem propagate_step_sview (acc : Workflow) (t j : Nat) :
    sview (acc.propagate_step t) j = sview acc j :=
  core_to_sview _ _ _ (propagate_step_core acc t j)

theorem wframe_connections (a b : Workflow) (h : wframe a = wframe b) :
    a.connections = b.connections := congrArg Prod.fst h

/-- The net effect of the propagation loop, relative to the state `w1` the
loop started from: nodes outside the target list keep their entry, every
target ends patched with the input recomputed in `w1` and
`needs_execution = true`. -/
theorem foldl_propagate_effect (w1 : Workflow) (ts : List Nat) :
    ∀ (acc : Workflow), wframe acc = wframe w1 → (∀ id, sview acc id = sview w1 id) →
    (∀ j, j ∉ ts → mfind? ((ts.foldl Workflow.propagate_step acc).nodes) j
        = mfind? acc.nodes j) ∧
    (∀ j, j ∈ ts → mfind? ((ts.foldl Workflow.propagate_step acc).nodes) j
        = (mfind? acc.nodes j).map
            (fun n => { n with input := claimAggregatedInput w1 j, needs_execution := true })) := by
  induction ts with
  | nil =>
    intro acc _ _
    exact ⟨fun j _ => rfl, fun j hj => absurd hj (List.not_mem_nil j)⟩
  | cons t ts ih =>
    intro acc hframe hview
    have hframe2 : wframe (acc.propagate_step t) = wframe w1 := by
      rw [propagate_step_frame, hframe]
    have hview2 : ∀ id, sview (acc.propagate_step t) id = sview w1 id := by
      intro id
      rw [propagate_step_sview, hview]
    have hagg : claimAggregatedInput acc t = claimAggregatedInput w1 t :=
      claimAggregatedInput_congr acc w1 t (wframe_connections _ _ hframe) hview
    obtain ⟨ihout, ihin⟩ := ih (acc.propagate_step t) hframe2 hview2
    rw [List.foldl_cons]
    constructor
    · intro j hj
      have hjt : j ≠ t := fun hc => hj (hc ▸ List.mem_cons_self t ts)
      have hjts : j ∉ ts := fun hc => hj (List.mem_cons_of_mem t hc)
      rw [ihout j hjts, propagate_step_find_ne acc t j hjt]
    · intro j hj
      by_cases hjts : j ∈ ts
      · rw [ihin j hjts]
        by_cases hjt : j = t
        · subst hjt
          rw [propagate_step_find_self, hagg, Option.map_map]
          rfl
        · rw [propagate_step_find_ne acc t j hjt]
      · have hjt : j = t := by
          rcases List.mem_cons.mp hj with h | h
          · exact h
          · exact absurd h hjts
        subst hjt
        rw [ihout j hjts, propagate_step_find_self, hagg]

/-- The state after the `output`/`needs_execution` write of
`update_node_output` but before propagation (workflow.rs lines 202-205). -/
def Workflow.with_output (w : Workflow) (n : Nat) (s : String) : Workflow :=
  { w with nodes := (mmodify w.nodes n
      (fun node => { node with output := some s, needs_execution := false })) }

theorem update_node_output_unfold (w : Workflow) (n : Nat) (s : String) :
    w.update_node_output n s
      = (w.direct_targets n).foldl Workflow.propagate_step (w.with_output n s) := rfl

/-- C8: `update_node_output n s` writes `output = some s` and
`needs_execution = false` on node `n`, recomputes the input of and marks
`needs_execution = true` on exactly the direct targets of `n` (the targets'
inputs being the aggregation over the post-write state `with_output`), leaves
every other node untouched, and leaves connections, id counters, selection,
dragging and drawing state unchanged — propagation never recurses beyond one
hop. -/
theorem update_node_output_spec (w : Workflow) (n : Nat) (s : String)
    (hself : n ∉ w.direct_targets n) :
    (wframe (w.update_node_output n s) = wframe w) ∧
    (mfind? (w.update_node_output n s).nodes n
      = (mfind? w.nodes n).map
          (fun nd => { nd with output := some s, needs_execution := false })) ∧
    (∀ t, t ∈ w.direct_targets n →
      mfind? (w.update_node_output n s).nodes t
        = (mfind? w.nodes t).map
            (fun nd => { nd with
              input := claimAggregatedInput (w.with_output n s) t
              needs_execution := true })) ∧
    (∀ j, j ≠ n → j ∉ w.direct_targets n →
      mfind? (w.update_node_output n s).nodes j = mfind? w.nodes j) := by
  obtain ⟨hout, hin⟩ := foldl_propagate_effect (w.with_output n s) (w.direct_targets n)
    (w.with_output n s) rfl (fun _ => rfl)
  refine ⟨update_node_output_frame w n s, ?_, ?_, ?_⟩
  · rw [update_node_output_unfold, hout n hself]
    unfold Workflow.with_output
    simp only
    rw [mfind?_mmodify_self]
  · intro t ht
    have htn : t ≠ n := fun hc => hself (hc ▸ ht)
    rw [update_node_output_unfold, hin t ht]
    unfold Workflow.with_output
    simp only
    rw [mfind?_mmodify_ne _ _ _ _ htn]
  · intro j hjn hjt
    rw [update_node_output_unfold, hout j hjt]
    unfold Workflow.with_output
    simp only
    rw [mfind?_mmodify_ne _ _ _ _ hjn]

/-- Witness for C8 on the concrete chain `wCascade` (`1 → 2 → 3`): updating
node 1's output rewrites node 1 and leaves node 3 (two hops downstream)
untouched. -/
theorem update_node_output_spec_witness :
    (mfind? (wCascade.update_node_output 1 "hi").nodes 1
      = (mfind? wCascade.nodes 1).map
          (fun nd => { nd with output := some "hi", needs_execution := false })) ∧
    (mfind? (wCascade.update_node_output 1 "hi").nodes 3 = mfind? wCascade.nodes 3) :=
  ⟨(update_node_output_spec wCascade 1 "hi" (by decide)).2.1,
   (update_node_output_spec wCascade 1 "hi" (by decide)).2.2.2 3 (by decide) (by decide)⟩

/-! ## C9: id discipline -/

/-- The quoted predicate of the claim: every node key is below
`next_node_id`, every connection key is below `next_connection_id`, and each
stored `Connection`'s `id` field equals its key. -/
def Wf (w : Workflow) : Prop :=
  (∀ p ∈ w.nodes, p.1 < w.next_node_id) ∧
  (∀ p ∈ w.connections, p.1 < w.next_connection_id) ∧
  (∀ p ∈ w.connections, (p.2).id = p.1)

/-- The companion id facts for nodes: keys are distinct and each stored
`Node`'s `id` field equals its key. -/
def WfIds (w : Workflow) : Prop :=
  (mkeys w.nodes).Nodup ∧ (∀ p ∈ w.nodes, (p.2).id = p.1)

/-- Both id invariants carried from state `a` to state `b`. -/
def Pres (a b : Workflow) : Prop := (Wf a → Wf b) ∧ (WfIds a → WfIds b)

theorem Pres.rfl {a : Workflow} : Pres a a := ⟨id, id⟩

theorem Pres.trans {a b c : Workflow} (h1 : Pres a b) (h2 : Pres b c) : Pres a c :=
  ⟨fun h => h2.1 (h1.1 h), fun h => h2.2 (h1.2 h)⟩

theorem mem_mmodify {α : Type} (m : List (Nat × α)) (k : Nat) (f : α → α)
    (p : Nat × α) (h : p ∈ mmodify m k f) :
    ∃ q ∈ m, p.1 = q.1 ∧ (p.2 = q.2 ∨ p.2 = f q.2) := by
  induction m with
  | nil => cases h
  | cons q rest ih =>
    obtain ⟨a, b⟩ := q
    by_cases hk : a = k
    · rw [mmodify, if_pos hk] at h
      rcases List.mem_cons.mp h with heq | hmem
      · exact ⟨(a, b), List.mem_cons_self _ _, by rw [heq], Or.inr (by rw [heq])⟩
      · obtain ⟨q2, hq2, h1, h2⟩ := ih hmem
        exact ⟨q2, List.mem_cons_of_mem _ hq2, h1, h2⟩
    · rw [mmodify, if_neg hk] at h
      rcases List.mem_cons.mp h with heq | hmem
      · exact ⟨(a, b), List.mem_cons_self _ _, by rw [heq], Or.inl (by rw [heq])⟩
      · obtain ⟨q2, hq2, h1, h2⟩ := ih hmem
        exact ⟨q2, List.mem_cons_of_mem _ hq2, h1, h2⟩

theorem mem_minsert {α : Type} (m : List (Nat × α)) (k : Nat) (v : α)
    (p : Nat × α) (h : p ∈ minsert m k v) : p ∈ m ∨ p = (k, v) := by
  unfold minsert at h
  rcases List.mem_append.mp h with hf | hs
  · exact Or.inl (List.mem_filter.mp hf).1
  · exact Or.inr (List.mem_singleton.mp hs)

theorem nodup_mkeys_minsert {α : Type} (m : List (Nat × α)) (k : Nat) (v : α)
    (h : (mkeys m).Nodup) : (mkeys (minsert m k v)).Nodup := by
  unfold minsert mkeys
  rw [List.map_append]
  rw [List.nodup_append]
  refine ⟨List.Sublist.nodup (List.Sublist.map _ (List.filter_sublist m)) h, by simp, ?_⟩
  intro x hx hx2
  rcases List.mem_map.mp hx with ⟨q, hq, hqx⟩
  have hqk : q.1 ≠ k := by simpa using (List.mem_filter.mp hq).2
  have hxk : x = k := by simpa using hx2
  exact hqk (by rw [hqx, hxk])

theorem nodup_mkeys_mmodify {α : Type} (m : List (Nat × α)) (k : Nat) (f : α → α)
    (h : (mkeys m).Nodup) : (mkeys (mmodify m k f)).Nodup := by
  rw [mkeys_mmodify]
  exact h

/-- Preservation under a key-respecting in-place node update. -/
theorem pres_modify (w : Workflow) (k : Nat) (f : Node → Node)
    (hf : ∀ n, (f n).id = n.id) :
    Pres w { w with nodes := (mmodify w.nodes k f) } := by
  constructor
  · rintro ⟨h1, h2, h3⟩
    refine ⟨?_, h2, h3⟩
    intro p hp
    obtain ⟨q, hq, hkey, _⟩ := mem_mmodify _ _ _ _ hp
    rw [hkey]
    exact h1 q hq
  · rintro ⟨h1, h2⟩
    refine ⟨nodup_mkeys_mmodify _ _ _ h1, ?_⟩
    intro p hp
    obtain ⟨q, hq, hkey, hval⟩ := mem_mmodify _ _ _ _ hp
    rcases hval with hv | hv
    · rw [hv, hkey]
      exact h2 q hq
    · rw [hv, hf, hkey]
      exact h2 q hq

/-- Preservation under deleting nodes. -/
theorem pres_nodes_filter (w : Workflow) (g : Nat × Node → Bool) :
    Pres w { w with nodes := (w.nodes.filter g) } := by
  constructor
  · rintro ⟨h1, h2, h3⟩
    exact ⟨fun p hp => h1 p (List.mem_filter.mp hp).1, h2, h3⟩
  · rintro ⟨h1, h2⟩
    exact ⟨List.Sublist.nodup (List.Sublist.map _ (List.filter_sublist _)) h1,
      fun p hp => h2 p (List.mem_filter.mp hp).1⟩

/-- Preservation under deleting connections. -/
theorem pres_conns_filter (w : Workflow) (g : Nat × Connection → Bool) :
    Pres w { w with connections := (w.connections.filter g) } := by
  constructor
  · rintro ⟨h1, h2, h3⟩
    exact ⟨h1, fun p hp => h2 p (List.mem_filter.mp hp).1,
      fun p hp => h3 p (List.mem_filter.mp hp).1⟩
  · exact id

/-- Preservation under changes that keep the maps and both counters. -/
theorem pres_other (w b : Workflow) (hn : b.nodes = w.nodes)
    (hc : b.connections = w.connections) (h1 : b.next_node_id = w.next_node_id)
    (h2 : b.next_connection_id = w.next_connection_id) : Pres w b := by
  constructor
  · rintro ⟨g1, g2, g3⟩
    rw [Wf, hn, hc, h1, h2]
    exact ⟨g1, g2, g3⟩
  · rintro ⟨g1, g2⟩
    rw [WfIds, hn]
    exact ⟨g1, g2⟩

/-- Preservation under `add_node`: fresh key, `id` field set to the key,
counter bumped. -/
theorem pres_add_node (w : Workflow) (ty : NodeType) (x y : Rat) :
    Pres w (w.add_node ty x y).1 := by
  unfold Workflow.add_node
  simp only
  constructor
  · rintro ⟨h1, h2, h3⟩
    refine ⟨?_, h2, h3⟩
    intro p hp
    rcases mem_minsert _ _ _ _ hp with hm | he
    · exact Nat.lt_succ_of_lt (h1 p hm)
    · rw [he]
      exact Nat.lt_succ_self _
  · rintro ⟨h1, h2⟩
    refine ⟨nodup_mkeys_minsert _ _ _ h1, ?_⟩
    intro p hp
    rcases mem_minsert _ _ _ _ hp with hm | he
    · exact h2 p hm
    · rw [he]
      rfl

theorem pres_update_input (w : Workflow) (t : Nat) :
    Pres w (w.update_node_input_from_all_sources t) := by
  rw [update_node_input_eq]
  exact pres_modify w t _ (fun n => rfl)

theorem pres_propagate_step (w : Workflow) (t : Nat) :
    Pres w (w.propagate_step t) := by
  simp only [Workflow.propagate_step]
  exact Pres.trans (pres_update_input w t)
    (pres_modify (w.update_node_input_from_all_sources t) t _ (fun n => rfl))

theorem pres_foldl_propagate (ts : List Nat) :
    ∀ acc : Workflow, Pres acc (ts.foldl Workflow.propagate_step acc) := by
  induction ts with
  | nil => exact fun acc => Pres.rfl
  | cons t ts ih =>
    intro acc
    rw [List.foldl_cons]
    exact Pres.trans (pres_propagate_step acc t) (ih (acc.propagate_step t))

theorem pres_propagate (w : Workflow) (src : Nat) :
    Pres w (w.propagate_output_to_connected_nodes src) :=
  pres_foldl_propagate _ w

theorem pres_update_node_output (w : Workflow) (id : Nat) (s : String) :
    Pres w (w.update_node_output id s) := by
  simp only [Workflow.update_node_output]
  exact Pres.trans
    (pres_modify w id (fun node => { node with output := some s, needs_execution := false })
      (fun n => rfl))
    (pres_propagate _ id)

theorem pres_conn_insert (w : Workflow) (f t : Nat) :
    Pres w { w with
      connections := minsert w.connections w.next_connection_id
        { id := w.next_connection_id, from_node_id := f, to_node_id := t }
      next_connection_id := w.next_connection_id + 1 } := by
  constructor
  · rintro ⟨h1, h2, h3⟩
    refine ⟨h1, ?_, ?_⟩
    · intro p hp
      rcases mem_minsert _ _ _ _ hp with hm | he
      · exact Nat.lt_succ_of_lt (h2 p hm)
      · rw [he]
        exact Nat.lt_succ_self _
    · intro p hp
      rcases mem_minsert _ _ _ _ hp with hm | he
      · exact h3 p hm
      · rw [he]
  · rintro ⟨h1, h2⟩
    exact ⟨h1, h2⟩

theorem pres_add_connection (w : Workflow) (f t : Nat) :
    Pres w (w.add_connection f t).1 := by
  unfold Workflow.add_connection
  by_cases hft : f = t
  · rw [if_pos hft]
    exact Pres.rfl
  · rw [if_neg hft]
    simp only
    refine Pres.trans (pres_conn_insert w f t) (Pres.trans (pres_update_input _ t) ?_)
    exact pres_modify _ t _ (fun n => rfl)

theorem pres_remove_node (w : Workflow) (id : Nat) : Pres w (w.remove_node id) := by
  obtain ⟨hn, hc, _, _, _, h1, h2⟩ := remove_node_parts w id
  constructor
  · rintro ⟨g1, g2, g3⟩
    refine ⟨?_, ?_, ?_⟩
    · intro p hp
      rw [hn] at hp
      rw [h1]
      exact g1 p (List.mem_filter.mp hp).1
    · intro p hp
      rw [hc] at hp
      rw [h2]
      exact g2 p (List.mem_filter.mp hp).1
    · intro p hp
      rw [hc] at hp
      exact g3 p (List.mem_filter.mp hp).1
  · rintro ⟨g1, g2⟩
    constructor
    · rw [hn]
      exact List.Sublist.nodup (List.Sublist.map _ (List.filter_sublist _)) g1
    · intro p hp
      rw [hn] at hp
      exact g2 p (List.mem_filter.mp hp).1

theorem pres_remove_connection_by_target (w : Workflow) (t : Nat) :
    Pres w (w.remove_connection_by_target_node t) := by
  unfold Workflow.remove_connection_by_target_node
  cases hfind : w.connections.find? (fun p => p.2.to_node_id = t) with
  | none => exact Pres.rfl
  | some p =>
    simp only
    apply Pres.trans
    · exact pres_conns_filter w (fun q => q.1 != p.1)
    · exact pres_modify _ t (fun node => { node with input := none }) (fun n => rfl)

theorem pres_start_dragging (w : Workflow) (id : Nat) (px py : Rat) (c : CanvasState) :
    Pres w (w.start_dragging_node id px py c) := by
  unfold Workflow.start_dragging_node
  by_cases h : mcontains w.nodes id
  · rw [if_pos h]
    simp only
    refine Pres.trans (pres_other w { w with dragging_node_id := some id } rfl rfl rfl rfl) ?_
    exact pres_modify _ id _ (fun n => rfl)
  · rw [if_neg h]
    exact Pres.rfl

theorem pres_drag_node (w : Workflow) (px py : Rat) (c : CanvasState) :
    Pres w (w.drag_node px py c) := by
  unfold Workflow.drag_node
  cases w.dragging_node_id with
  | none => exact Pres.rfl
  | some id =>
    simp only
    exact pres_modify w id _ (fun n => rfl)

theorem pres_end_dragging (w : Workflow) : Pres w w.end_dragging_node := by
  unfold Workflow.end_dragging_node
  cases w.dragging_node_id with
  | none => exact Pres.rfl
  | some id =>
    simp only
    refine Pres.trans (pres_other w { w with dragging_node_id := none } rfl rfl rfl rfl) ?_
    exact pres_propagate _ id

theorem pres_start_drawing (w : Workflow) (id : Nat) (px py : Rat) (c : CanvasState) :
    Pres w (w.start_drawing_connection id px py c) := by
  unfold Workflow.start_drawing_connection
  by_cases h : mcontains w.nodes id
  · rw [if_pos h]
    exact pres_other w _ rfl rfl rfl rfl
  · rw [if_neg h]
    exact Pres.rfl

theorem pres_redirect (w : Workflow) (t : Nat) : Pres w (w.redirect_connection t) := by
  unfold Workflow.redirect_connection
  cases hfind : w.connections.find? (fun p => p.2.to_node_id = t) with
  | none => exact Pres.rfl
  | some p =>
    simp only
    cases hsrc : mfind? w.nodes p.2.from_node_id with
    | none => exact Pres.rfl
    | some source_node =>
      simp only
      refine Pres.trans ?_ (pres_remove_connection_by_target _ t)
      exact pres_other w _ rfl rfl rfl rfl

theorem pres_update_drawing (w : Workflow) (px py : Rat) (c : CanvasState) :
    Pres w (w.update_drawing_connection px py c) :=
  pres_other w _ rfl rfl rfl rfl

theorem pres_cancel_drawing (w : Workflow) : Pres w w.cancel_drawing_connection :=
  pres_other w _ rfl rfl rfl rfl

theorem pres_complete_drawing (w : Workflow) : Pres w (w.complete_drawing_connection).1 := by
  unfold Workflow.complete_drawing_connection
  cases htgt : w.drawing_connection_state.target_node_id with
  | none => exact pres_cancel_drawing w
  | some target_id =>
    simp only
    by_cases h : mcontains w.nodes w.drawing_connection_state.source_node_id
    · rw [if_pos h]
      exact Pres.trans
        (pres_add_connection w w.drawing_connection_state.source_node_id target_id)
        (pres_cancel_drawing _)
    · rw [if_neg h]
      exact pres_cancel_drawing w

theorem pres_set_target (w : Workflow) (t : Nat) : Pres w (w.set_connection_target t) := by
  unfold Workflow.set_connection_target
  by_cases h : w.drawing_connection_state.source_node_id ≠ t
  · rw [if_pos h]
    exact pres_other w _ rfl rfl rfl rfl
  · rw [if_neg h]
    exact Pres.rfl

theorem pres_clear_target (w : Workflow) : Pres w w.clear_connection_target :=
  pres_other w _ rfl rfl rfl rfl

theorem wf_fresh_ids (w : Workflow) (h : Wf w) :
    mfind? w.nodes w.next_node_id = none ∧
    mfind? w.connections w.next_connection_id = none := by
  obtain ⟨h1, h2, _⟩ := h
  constructor
  · rw [mfind?_eq_none_iff]
    intro hmem
    rcases (mem_mkeys_iff _ _).mp hmem with ⟨v, hv⟩
    exact absurd (h1 _ hv) (lt_irrefl _)
  · rw [mfind?_eq_none_iff]
    intro hmem
    rcases (mem_mkeys_iff _ _).mp hmem with ⟨v, hv⟩
    exact absurd (h2 _ hv) (lt_irrefl _)

theorem wfids_unique (w : Workflow) (h : WfIds w) :
    (w.nodes.map (fun p => (p.2).id)).Nodup := by
  obtain ⟨h1, h2⟩ := h
  have : w.nodes.map (fun p => (p.2).id) = w.nodes.map Prod.fst :=
    List.map_congr_left h2
  rw [this]
  exact h1

/-- C9: the id-discipline predicate `Wf` (every node key below
`next_node_id`, every connection key below `next_connection_id`, stored
connection ids equal to their keys) holds for the default workflow and is
preserved by every `Workflow` operation, as is the companion node-id
discipline `WfIds`; consequently the next ids are always unused (insertions
never overwrite) and the stored `Node.id` values stay pairwise distinct. -/
theorem workflow_id_invariant :
    (Wf Workflow.dflt ∧ WfIds Workflow.dflt) ∧
    (∀ (w : Workflow) (ty : NodeType) (x y : Rat), Pres w (w.add_node ty x y).1) ∧
    (∀ (w : Workflow) (id : Nat), Pres w (w.remove_node id)) ∧
    (∀ (w : Workflow) (f t : Nat), Pres w (w.add_connection f t).1) ∧
    (∀ (w : Workflow) (t : Nat), Pres w (w.remove_connection_by_target_node t)) ∧
    (∀ (w : Workflow) (id : Nat) (px py : Rat) (c : CanvasState),
      Pres w (w.start_dragging_node id px py c)) ∧
    (∀ (w : Workflow) (px py : Rat) (c : CanvasState), Pres w (w.drag_node px py c)) ∧
    (∀ w : Workflow, Pres w w.end_dragging_node) ∧
    (∀ (w : Workflow) (id : Nat) (px py : Rat) (c : CanvasState),
      Pres w (w.start_drawing_connection id px py c)) ∧
    (∀ (w : Workflow) (t : Nat), Pres w (w.redirect_connection t)) ∧
    (∀ (w : Workflow) (px py : Rat) (c : CanvasState),
      Pres w (w.update_drawing_connection px py c)) ∧
    (∀ (w : Workflow) (id : Nat) (s : String), Pres w (w.update_node_output id s)) ∧
    (∀ (w : Workflow) (t : Nat), Pres w (w.update_node_input_from_all_sources t)) ∧
    (∀ w : Workflow, Pres w (w.complete_drawing_connection).1) ∧
    (∀ w : Workflow, Pres w w.cancel_drawing_connection) ∧
    (∀ (w : Workflow) (t : Nat), Pres w (w.set_connection_target t)) ∧
    (∀ w : Workflow, Pres w w.clear_connection_target) ∧
    (∀ w : Workflow, Wf w →
      mfind? w.nodes w.next_node_id = none ∧
      mfind? w.connections w.next_connection_id = none) ∧
    (∀ w : Workflow, WfIds w → (w.nodes.map (fun p => (p.2).id)).Nodup) :=
  ⟨⟨by unfold Wf; decide, by unfold WfIds; decide⟩,
    pres_add_node, pres_remove_node, pres_add_connection,
    pres_remove_connection_by_target, pres_start_dragging, pres_drag_node,
    pres_end_dragging, pres_start_drawing, pres_redirect, pres_update_drawing,
    pres_update_node_output, pres_update_input, pres_complete_drawing,
    pres_cancel_drawing, pres_set_target, pres_clear_target, wf_fresh_ids,
    wfids_unique⟩

/-- Witness for C9: the invariant carries from the default workflow through
a concrete `add_node`, and yields concrete freshness there. -/
theorem workflow_id_invariant_witness :
    Wf (Workflow.dflt.add_node NodeType.prompt 0 0).1 ∧
    mfind? Workflow.dflt.nodes Workflow.dflt.next_node_id = none :=
  ⟨(workflow_id_invariant.2.1 Workflow.dflt NodeType.prompt 0 0).1
      workflow_id_invariant.1.1,
    (workflow_id_invariant.2.2.2.2.2.2.2.2.2.2.2.2.2.2.2.2.2.1 Workflow.dflt
      workflow_id_invariant.1.1).1⟩

/-! ## C2: the execution order -/

theorem list_contains_iff (l : List Nat) (a : Nat) : l.contains a = true ↔ a ∈ l := by
  simp

/-- `b` occurs strictly before (the first occurrence of) `a` in `o`. -/
def listBefore (o : List Nat) (b a : Nat) : Prop :=
  b ∈ o.takeWhile (fun x => x != a)

/-- The scheduling edge of the claim: `a` depends on `b` when both are
eligible and a connection runs from `b` to `a`. -/
def Workflow.depends (w : Workflow) (b a : Nat) : Prop :=
  a ∈ w.model_nodes_list ∧ b ∈ w.model_nodes_list ∧
  ∃ c ∈ mvalues w.connections, c.from_node_id = b ∧ c.to_node_id = a

/-- The dependency graph restricted to the eligible set has no cycle. -/
def Workflow.acyclicEligible (w : Workflow) : Prop :=
  ∀ a, ¬ Relation.TransGen w.depends a a

theorem kahnLoop_empty (rem : List (Nat × List Nat)) (res : List Nat)
    (h : rem.isEmpty = true) : kahnLoop rem res = res := by
  unfold kahnLoop
  rw [if_pos h]

theorem kahnLoop_stuck (rem : List (Nat × List Nat)) (res : List Nat)
    (h1 : rem.isEmpty = false) (h2 : (kahnReady rem).isEmpty = true) :
    kahnLoop rem res = res := by
  unfold kahnLoop
  rw [if_neg (by simp [h1]), dif_pos h2]

theorem kahnLoop_step (rem : List (Nat × List Nat)) (res : List Nat)
    (h1 : rem.isEmpty = false) (h2 : (kahnReady rem).isEmpty = false) :
    kahnLoop rem res = kahnLoop (kahnNext rem) (res ++ kahnReady rem) := by
  conv_lhs => rw [kahnLoop.eq_def]
  rw [if_neg (by simp [h1]), dif_neg (by simp [h2])]

theorem ready_sub_keys (rem : List (Nat × List Nat)) (x : Nat)
    (h : x ∈ kahnReady rem) : x ∈ mkeys rem := by
  unfold kahnReady at h
  rcases List.mem_map.mp h with ⟨p, hp, hpx⟩
  exact List.mem_map.mpr ⟨p, (List.mem_filter.mp hp).1, hpx⟩

theorem mkeys_kahnNext (rem : List (Nat × List Nat)) :
    mkeys (kahnNext rem)
      = mkeys (rem.filter (fun p => !(kahnReady rem).contains p.1)) := by
  unfold kahnNext mkeys
  rw [List.map_map]
  rfl

theorem mem_keys_kahnNext (rem : List (Nat × List Nat)) (x : Nat) :
    x ∈ mkeys (kahnNext rem) ↔ x ∈ mkeys rem ∧ x ∉ kahnReady rem := by
  rw [mkeys_kahnNext]
  unfold mkeys
  constructor
  · intro h
    rcases List.mem_map.mp h with ⟨p, hp, hpx⟩
    obtain ⟨hpm, hpc⟩ := List.mem_filter.mp hp
    refine ⟨List.mem_map.mpr ⟨p, hpm, hpx⟩, ?_⟩
    intro hxr
    rw [Bool.not_eq_true', ← Bool.not_eq_true] at hpc
    exact hpc ((list_contains_iff _ _).mpr (hpx ▸ hxr))
  · rintro ⟨hx, hxr⟩
    rcases List.mem_map.mp hx with ⟨p, hp, hpx⟩
    refine List.mem_map.mpr ⟨p, List.mem_filter.mpr ⟨hp, ?_⟩, hpx⟩
    rw [Bool.not_eq_true', ← Bool.not_eq_true]
    intro hc
    exact hxr (hpx ▸ (list_contains_iff _ _).mp hc)

theorem nodup_keys_kahnNext (rem : List (Nat × List Nat))
    (h : (mkeys rem).Nodup) : (mkeys (kahnNext rem)).Nodup := by
  rw [mkeys_kahnNext]
  exact List.Sublist.nodup (List.Sublist.map _ (List.filter_sublist _)) h

theorem nodup_ready (rem : List (Nat × List Nat)) (h : (mkeys rem).Nodup) :
    (kahnReady rem).Nodup := by
  unfold kahnReady
  exact List.Sublist.nodup (List.Sublist.map _ (List.filter_sublist _)) h

/-- The loop only ever appends: the result is the accumulator followed by
ids drawn from the keys of `remaining`. -/
theorem kahnLoop_prefix (rem : List (Nat × List Nat)) (res : List Nat) :
    ∃ ext, kahnLoop rem res = res ++ ext ∧ ∀ x ∈ ext, x ∈ mkeys rem := by
  induction rem, res using kahnLoop.induct with
  | case1 rem res h =>
    rw [kahnLoop_empty rem res h]
    exact ⟨[], by simp, by simp⟩
  | case2 rem res h1 h2 =>
    rw [kahnLoop_stuck rem res (by simpa using h1) (by simpa using h2)]
    exact ⟨[], by simp, by simp⟩
  | case3 rem res h1 h2 ih =>
    obtain ⟨ext, hext, hmem⟩ := ih
    rw [kahnLoop_step rem res (by simpa using h1) (by simpa using h2), hext]
    refine ⟨kahnReady rem ++ ext, by rw [List.append_assoc], ?_⟩
    intro x hx
    rcases List.mem_append.mp hx with hr | he
    · exact ready_sub_keys rem x hr
    · exact ((mem_keys_kahnNext rem x).mp (hmem x he)).1

/-- The loop emits no duplicates when the keys are distinct and disjoint
from the accumulator. -/
theorem kahnLoop_nodup (rem : List (Nat × List Nat)) (res : List Nat) :
    (mkeys rem).Nodup → res.Nodup → (∀ x ∈ res, x ∉ mkeys rem) →
    (kahnLoop rem res).Nodup := by
  induction rem, res using kahnLoop.induct with
  | case1 rem res h =>
    intro _ hres _
    rw [kahnLoop_empty rem res h]
    exact hres
  | case2 rem res h1 h2 =>
    intro _ hres _
    rw [kahnLoop_stuck rem res (by simpa using h1) (by simpa using h2)]
    exact hres
  | case3 rem res h1 h2 ih =>
    intro hkeys hres hdisj
    rw [kahnLoop_step rem res (by simpa using h1) (by simpa using h2)]
    refine ih (nodup_keys_kahnNext rem hkeys) ?_ ?_
    · rw [List.nodup_append]
      refine ⟨hres, nodup_ready rem hkeys, ?_⟩
      intro x hx hx2
      exact hdisj x hx (ready_sub_keys rem x hx2)
    · intro x hx
      rw [mem_keys_kahnNext]
      rcases List.mem_append.mp hx with hr | he
      · intro hc
        exact hdisj x hr hc.1
      · intro hc
        exact hc.2 he

theorem nodup_key_unique {α : Type} (m : List (Nat × α)) (k : Nat) (v1 v2 : α)
    (hnd : (mkeys m).Nodup) (h1 : (k, v1) ∈ m) (h2 : (k, v2) ∈ m) : v1 = v2 := by
  have e1 := mem_mfind?_of_nodup m k v1 hnd h1
  have e2 := mem_mfind?_of_nodup m k v2 hnd h2
  rw [e1] at e2
  exact Option.some.inj e2

theorem takeWhile_append_all (p : Nat → Bool) (l1 l2 : List Nat)
    (h : ∀ x ∈ l1, p x = true) :
    List.takeWhile p (l1 ++ l2) = l1 ++ List.takeWhile p l2 := by
  induction l1 with
  | nil => rfl
  | cons a l1 ih =>
    rw [List.cons_append, List.takeWhile_cons_of_pos (h a (List.mem_cons_self a l1)),
      ih (fun x hx => h x (List.mem_cons_of_mem a hx)), List.cons_append]

theorem mem_kahnNext_iff (rem : List (Nat × List Nat)) (p : Nat × List Nat) :
    p ∈ kahnNext rem
      ↔ ∃ q ∈ rem, q.1 ∉ kahnReady rem
          ∧ p = (q.1, q.2.filter (fun d => !(kahnReady rem).contains d)) := by
  unfold kahnNext
  rw [List.mem_map]
  constructor
  · rintro ⟨q, hq, hpq⟩
    obtain ⟨hqm, hqc⟩ := List.mem_filter.mp hq
    refine ⟨q, hqm, ?_, hpq.symm⟩
    intro hc
    rw [Bool.not_eq_true'] at hqc
    rw [← list_contains_iff] at hc
    rw [hc] at hqc
    cases hqc
  · rintro ⟨q, hqm, hqr, hpq⟩
    refine ⟨q, List.mem_filter.mpr ⟨hqm, ?_⟩, hpq.symm⟩
    rw [Bool.not_eq_true']
    rw [← Bool.not_eq_true]
    intro hc
    exact hqr ((list_contains_iff _ _).mp hc)

theorem ready_no_deps (rem : List (Nat × List Nat)) (a b : Nat) (ds : List Nat)
    (hnd : (mkeys rem).Nodup) (hmem : (a, ds) ∈ rem) (hb : b ∈ ds) :
    a ∉ kahnReady rem := by
  intro hc
  unfold kahnReady at hc
  rcases List.mem_map.mp hc with ⟨p, hp, hpa⟩
  obtain ⟨hpm, hpe⟩ := List.mem_filter.mp hp
  have hds : p.2 = ds := by
    have hmem2 : (p.1, p.2) ∈ rem := by simpa using hpm
    rw [hpa] at hmem2
    exact nodup_key_unique rem a p.2 ds hnd hmem2 hmem
  rw [hds] at hpe
  rw [List.isEmpty_iff.mp hpe] at hb
  cases hb

/-- If `b` is among `a`'s still-pending dependencies, `b` comes out strictly
before `a` (whenever `a` comes out at all). -/
theorem kahnLoop_before (rem : List (Nat × List Nat)) (res : List Nat) :
    ∀ (a b : Nat) (ds : List Nat), (mkeys rem).Nodup → (a, ds) ∈ rem → b ∈ ds →
      b ∈ mkeys rem → a ∉ res → b ∉ res → a ∈ kahnLoop rem res →
      listBefore (kahnLoop rem res) b a := by
  induction rem, res using kahnLoop.induct with
  | case1 rem res h =>
    intro a b ds _ hmem _ _ _ _ _
    rw [List.isEmpty_iff.mp h] at hmem
    cases hmem
  | case2 rem res h1 h2 =>
    intro a b ds _ _ _ _ ha _ haout
    rw [kahnLoop_stuck rem res (by simpa using h1) (by simpa using h2)] at haout
    exact absurd haout ha
  | case3 rem res h1 h2 ih =>
    intro a b ds hnd hmem hb hbk ha hbres haout
    have h1f : rem.isEmpty = false := by simpa using h1
    have h2f : (kahnReady rem).isEmpty = false := by simpa using h2
    rw [kahnLoop_step rem res h1f h2f] at haout ⊢
    have hanr : a ∉ kahnReady rem := ready_no_deps rem a b ds hnd hmem hb
    by_cases hbr : b ∈ kahnReady rem
    · obtain ⟨ext, hext, _⟩ := kahnLoop_prefix (kahnNext rem) (res ++ kahnReady rem)
      rw [hext]
      unfold listBefore
      rw [takeWhile_append_all]
      · exact List.mem_append_left _ (List.mem_append.mpr (Or.inr hbr))
      · intro x hx
        have hxa : x ≠ a := by
          intro hc
          subst hc
          rcases List.mem_append.mp hx with h | h
          · exact ha h
          · exact hanr h
        simpa using hxa
    · refine ih a b (ds.filter (fun d => !(kahnReady rem).contains d))
        (nodup_keys_kahnNext rem hnd) ?_ ?_ ?_ ?_ ?_ haout
      · exact (mem_kahnNext_iff rem _).mpr ⟨(a, ds), hmem, hanr, rfl⟩
      · refine List.mem_filter.mpr ⟨hb, ?_⟩
        rw [Bool.not_eq_true', ← Bool.not_eq_true]
        intro hc
        exact hbr ((list_contains_iff _ _).mp hc)
      · exact (mem_keys_kahnNext rem b).mpr ⟨hbk, hbr⟩
      · intro hc
        rcases List.mem_append.mp hc with h | h
        · exact ha h
        · exact hanr h
      · intro hc
        rcases List.mem_append.mp hc with h | h
        · exact hbres h
        · exact hbr h

/-- When every nonempty subset of the keys contains an entry with no pending
dependency inside the subset, the loop drains all keys. -/
theorem kahnLoop_complete (rem : List (Nat × List Nat)) (res : List Nat) :
    (∀ p ∈ rem, ∀ d ∈ p.2, d ∈ mkeys rem) →
    (∀ S : List Nat, S ≠ [] → (∀ s ∈ S, s ∈ mkeys rem) →
      ∃ a ∈ S, ∀ p ∈ rem, p.1 = a → ∀ b ∈ p.2, b ∉ S) →
    ∀ k ∈ mkeys rem, k ∈ kahnLoop rem res := by
  induction rem, res using kahnLoop.induct with
  | case1 rem res h =>
    intro _ _ k hk
    rw [List.isEmpty_iff.mp h] at hk
    cases hk
  | case2 rem res h1 h2 =>
    intro hclosed hsrc k hk
    exfalso
    have hremne : rem ≠ [] := by
      intro hc
      rw [hc] at h1
      exact h1 rfl
    have hkeysne : mkeys rem ≠ [] := by
      intro hc
      unfold mkeys at hc
      exact hremne (List.map_eq_nil.mp hc)
    obtain ⟨a, haS, hprop⟩ := hsrc (mkeys rem) hkeysne (fun s hs => hs)
    rcases (mem_mkeys_iff rem a).mp haS with ⟨v, hv⟩
    have hvnil : v = [] := by
      rw [List.eq_nil_iff_forall_not_mem]
      intro d hd
      exact hprop (a, v) hv rfl d hd (hclosed (a, v) hv d hd)
    have haready : a ∈ kahnReady rem := by
      unfold kahnReady
      refine List.mem_map.mpr ⟨(a, v), List.mem_filter.mpr ⟨hv, by simp [hvnil]⟩, rfl⟩
    rw [List.isEmpty_iff.mp h2] at haready
    cases haready
  | case3 rem res h1 h2 ih =>
    intro hclosed hsrc k hk
    have h1f : rem.isEmpty = false := by simpa using h1
    have h2f : (kahnReady rem).isEmpty = false := by simpa using h2
    rw [kahnLoop_step rem res h1f h2f]
    by_cases hkr : k ∈ kahnReady rem
    · obtain ⟨ext, hext, _⟩ := kahnLoop_prefix (kahnNext rem) (res ++ kahnReady rem)
      rw [hext]
      exact List.mem_append_left _ (List.mem_append.mpr (Or.inr hkr))
    · refine ih ?_ ?_ k ((mem_keys_kahnNext rem k).mpr ⟨hk, hkr⟩)
      · intro p hp d hd
        obtain ⟨q, hq, hqr, hpq⟩ := (mem_kahnNext_iff rem p).mp hp
        rw [hpq] at hd
        obtain ⟨hdq, hdc⟩ := List.mem_filter.mp hd
        refine (mem_keys_kahnNext rem d).mpr ⟨hclosed q hq d hdq, ?_⟩
        intro hc
        rw [Bool.not_eq_true'] at hdc
        rw [← list_contains_iff] at hc
        rw [hc] at hdc
        cases hdc
      · intro S hne hsub
        obtain ⟨a, haS, hprop⟩ := hsrc S hne
          (fun s hs => ((mem_keys_kahnNext rem s).mp (hsub s hs)).1)
        refine ⟨a, haS, ?_⟩
        intro p hp hpa b hbp
        obtain ⟨q, hq, hqr, hpq⟩ := (mem_kahnNext_iff rem p).mp hp
        rw [hpq] at hpa hbp
        exact hprop q hq hpa b (List.mem_filter.mp hbp).1

theorem mfind?_minsert_self {α : Type} (m : List (Nat × α)) (k : Nat) (v : α) :
    mfind? (minsert m k v) k = some v := by
  unfold minsert
  induction m with
  | nil => simp [mfind?]
  | cons p rest ih =>
    obtain ⟨a, b⟩ := p
    by_cases ha : a = k
    · simpa [List.filter, ha] using ih
    · simp only [List.filter]
      rw [show ((a, b).1 != k) = true by simpa using ha]
      simpa [mfind?, ha] using ih

theorem mfind?_minsert_ne {α : Type} (m : List (Nat × α)) (k j : Nat) (v : α)
    (h : j ≠ k) : mfind? (minsert m k v) j = mfind? m j := by
  unfold minsert
  induction m with
  | nil => simp [mfind?, Ne.symm h]
  | cons p rest ih =>
    obtain ⟨a, b⟩ := p
    by_cases ha : a = k
    · rw [show List.filter (fun p => p.1 != k) ((a, b) :: rest)
          = List.filter (fun p => p.1 != k) rest by
        rw [List.filter_cons]; simp [ha]]
      rw [ih, mfind?, if_neg (by rw [ha]; exact fun hc => h hc.symm)]
    · rw [show List.filter (fun p => p.1 != k) ((a, b) :: rest)
          = (a, b) :: List.filter (fun p => p.1 != k) rest by
        rw [List.filter_cons]; simp [ha]]
      by_cases haj : a = j
      · rw [List.cons_append, mfind?, if_pos haj, mfind?, if_pos haj]
      · rw [List.cons_append, mfind?, if_neg haj, mfind?, if_neg haj]
        exact ih

theorem foldl_minsert_find (l : List Nat) :
    ∀ (m0 : List (Nat × List Nat)) (a : Nat),
      mfind? (l.foldl (fun m id => minsert m id []) m0) a
        = if a ∈ l then some [] else mfind? m0 a := by
  induction l with
  | nil => intro m0 a; simp
  | cons x l ih =>
    intro m0 a
    rw [List.foldl_cons, ih]
    by_cases hal : a ∈ l
    · rw [if_pos hal, if_pos (List.mem_cons_of_mem x hal)]
    · rw [if_neg hal]
      by_cases hax : a = x
      · rw [hax, mfind?_minsert_self, if_pos (List.mem_cons_self x l)]
      · rw [mfind?_minsert_ne _ _ _ _ hax,
          if_neg (by simp [hax, hal])]

theorem initDeps_find (mn : List Nat) (a : Nat) :
    mfind? (initDeps mn) a = if a ∈ mn then some [] else none := by
  unfold initDeps
  rw [foldl_minsert_find]
  rfl

theorem foldl_minsert_nodup (l : List Nat) :
    ∀ m0 : List (Nat × List Nat), (mkeys m0).Nodup →
      (mkeys (l.foldl (fun m id => minsert m id []) m0)).Nodup := by
  induction l with
  | nil => exact fun m0 h => h
  | cons x l ih =>
    intro m0 h
    rw [List.foldl_cons]
    exact ih _ (nodup_mkeys_minsert m0 x [] h)

theorem initDeps_nodup (mn : List Nat) : (mkeys (initDeps mn)).Nodup :=
  foldl_minsert_nodup mn [] (by simp [mkeys])

theorem foldl_depStep_keys (mn : List Nat) (cs : List Connection) :
    ∀ m0, mkeys (cs.foldl (depStep mn) m0) = mkeys m0 := by
  induction cs with
  | nil => exact fun m0 => rfl
  | cons c cs ih =>
    intro m0
    rw [List.foldl_cons, ih]
    unfold depStep
    by_cases hc : mn.contains c.to_node_id && mn.contains c.from_node_id
    · rw [if_pos hc, mkeys_mmodify]
    · rw [if_neg hc]

theorem build_dependencies_keys (w : Workflow) (a : Nat) :
    a ∈ mkeys w.build_dependencies ↔ a ∈ w.model_nodes_list := by
  unfold Workflow.build_dependencies
  rw [foldl_depStep_keys]
  constructor
  · intro h
    by_contra hc
    have := (mfind?_eq_none_iff (initDeps w.model_nodes_list) a).mp
      (by rw [initDeps_find, if_neg hc])
    exact this h
  · intro h
    rcases Option.isSome_iff_exists.mp
        (by rw [initDeps_find, if_pos h]; rfl :
          (mfind? (initDeps w.model_nodes_list) a).isSome = true) with ⟨v, hv⟩
    exact (mem_mkeys_iff _ a).mpr ⟨v, mfind?_mem _ _ _ hv⟩

theorem build_dependencies_nodup (w : Workflow) :
    (mkeys w.build_dependencies).Nodup := by
  unfold Workflow.build_dependencies
  rw [foldl_depStep_keys]
  exact initDeps_nodup _

theorem mem_depsInsert (ds : List Nat) (x b : Nat) :
    b ∈ depsInsert ds x ↔ b ∈ ds ∨ b = x := by
  unfold depsInsert
  by_cases hc : ds.contains x
  · rw [if_pos hc]
    constructor
    · exact Or.inl
    · rintro (h | h)
      · exact h
      · rw [h]
        exact (list_contains_iff ds x).mp hc
  · rw [if_neg hc]
    simp

theorem foldl_depStep_find (mn : List Nat) (cs : List Connection) :
    ∀ (m0 : List (Nat × List Nat)) (a : Nat) (ds0 ds : List Nat) (b : Nat),
      mfind? m0 a = some ds0 →
      mfind? (cs.foldl (depStep mn) m0) a = some ds →
      (b ∈ ds ↔ b ∈ ds0 ∨ ∃ c ∈ cs, c.to_node_id = a ∧ c.from_node_id = b ∧
        mn.contains c.to_node_id = true ∧ mn.contains c.from_node_id = true) := by
  induction cs with
  | nil =>
    intro m0 a ds0 ds b h0 h1
    rw [List.foldl_nil, h0] at h1
    obtain rfl : ds0 = ds := Option.some.inj h1
    simp
  | cons c cs ih =>
    intro m0 a ds0 ds b h0 h1
    rw [List.foldl_cons] at h1
    by_cases hcond : (mn.contains c.to_node_id && mn.contains c.from_node_id) = true
    · rw [Bool.and_eq_true] at hcond
      by_cases hat : c.to_node_id = a
      · have hstep : mfind? (depStep mn m0 c) a = some (depsInsert ds0 c.from_node_id) := by
          unfold depStep
          rw [if_pos (by rw [Bool.and_eq_true]; exact hcond), ← hat,
            mfind?_mmodify_self, hat, h0]
          rfl
        have := ih (depStep mn m0 c) a (depsInsert ds0 c.from_node_id) ds b hstep h1
        rw [this, mem_depsInsert]
        constructor
        · rintro ((h | h) | h)
          · exact Or.inl h
          · exact Or.inr ⟨c, List.mem_cons_self c cs, hat, by rw [h], hcond.1, hcond.2⟩
          · obtain ⟨c2, hc2, rest⟩ := h
            exact Or.inr ⟨c2, List.mem_cons_of_mem c hc2, rest⟩
        · rintro (h | ⟨c2, hc2, hc2a, hc2b, hc2cond⟩)
          · exact Or.inl (Or.inl h)
          · rcases List.mem_cons.mp hc2 with hcc | hcc
            · subst hcc
              exact Or.inl (Or.inr hc2b.symm)
            · exact Or.inr ⟨c2, hcc, hc2a, hc2b, hc2cond⟩
      · have hstep : mfind? (depStep mn m0 c) a = some ds0 := by
          unfold depStep
          rw [if_pos (by rw [Bool.and_eq_true]; exact hcond),
            mfind?_mmodify_ne _ _ _ _ (fun hc => hat hc.symm), h0]
        have := ih (depStep mn m0 c) a ds0 ds b hstep h1
        rw [this]
        constructor
        · rintro (h | ⟨c2, hc2, rest⟩)
          · exact Or.inl h
          · exact Or.inr ⟨c2, List.mem_cons_of_mem c hc2, rest⟩
        · rintro (h | ⟨c2, hc2, hc2a, rest⟩)
          · exact Or.inl h
          · rcases List.mem_cons.mp hc2 with hcc | hcc
            · subst hcc
              exact absurd hc2a hat
            · exact Or.inr ⟨c2, hcc, hc2a, rest⟩
    · have hstep : mfind? (depStep mn m0 c) a = some ds0 := by
        unfold depStep
        rw [if_neg hcond, h0]
      have := ih (depStep mn m0 c) a ds0 ds b hstep h1
      rw [this]
      constructor
      · rintro (h | ⟨c2, hc2, rest⟩)
        · exact Or.inl h
        · exact Or.inr ⟨c2, List.mem_cons_of_mem c hc2, rest⟩
      · rintro (h | ⟨c2, hc2, hc2a, hc2b, hc2c, hc2d⟩)
        · exact Or.inl h
        · rcases List.mem_cons.mp hc2 with hcc | hcc
          · subst hcc
            exact absurd ((by rw [hc2c, hc2d]; rfl : (mn.contains c2.to_node_id &&
                mn.contains c2.from_node_id) = true)) hcond
          · exact Or.inr ⟨c2, hcc, hc2a, hc2b, hc2c, hc2d⟩

/-- The dependency map stores exactly the scheduling edges of the claim. -/
theorem build_dependencies_find_iff (w : Workflow) (a : Nat) (ds : List Nat)
    (h : mfind? w.build_dependencies a = some ds) (b : Nat) :
    b ∈ ds ↔ w.depends b a := by
  have hmem : a ∈ mkeys w.build_dependencies :=
    (mem_mkeys_iff _ a).mpr ⟨ds, mfind?_mem _ _ _ h⟩
  have hamn : a ∈ w.model_nodes_list := (build_dependencies_keys w a).mp hmem
  have h0 : mfind? (initDeps w.model_nodes_list) a = some [] := by
    rw [initDeps_find, if_pos hamn]
  have hiff := foldl_depStep_find w.model_nodes_list (mvalues w.connections)
    (initDeps w.model_nodes_list) a [] ds b h0 h
  rw [hiff]
  unfold Workflow.depends
  constructor
  · rintro (hnil | ⟨c, hc, hca, hcb, hcta, hctb⟩)
    · cases hnil
    · refine ⟨hamn, ?_, c, hc, hcb, hca⟩
      rw [← hcb]
      exact (list_contains_iff _ _).mp hctb
  · rintro ⟨_, hbmn, c, hc, hcb, hca⟩
    refine Or.inr ⟨c, hc, hca, hcb, ?_, ?_⟩
    · rw [hca]
      exact (list_contains_iff _ _).mpr hamn
    · rw [hcb]
      exact (list_contains_iff _ _).mpr hbmn

theorem mem_model_nodes (w : Workflow) (id : Nat) :
    id ∈ w.model_nodes_list
      ↔ ∃ p ∈ w.nodes, p.1 = id ∧ p.2.needs_execution = true ∧
          ∃ prov mn msgs th, p.2.node_type = NodeType.model prov mn msgs th := by
  unfold Workflow.model_nodes_list
  rw [List.mem_filterMap]
  constructor
  · rintro ⟨p, hp, hf⟩
    refine ⟨p, hp, ?_⟩
    cases hnt : p.2.node_type with
    | prompt => simp [hnt] at hf
    | fileImport fp fn => simp [hnt] at hf
    | fileExport fp fn ft => simp [hnt] at hf
    | model prov mn msgs th =>
      simp only [hnt] at hf
      by_cases hne : p.2.needs_execution
      · rw [if_pos hne] at hf
        exact ⟨Option.some.inj hf, hne, prov, mn, msgs, th, rfl⟩
      · rw [if_neg hne] at hf
        cases hf
  · rintro ⟨p, hp, hpid, hne, prov, mn, msgs, th, hnt⟩
    exact ⟨p, hp, by simp [hnt, hne, hpid]⟩

/-- A finite acyclic dependency relation admits a source in every nonempty
set of keys: proved by iterating a chosen in-set dependency and applying the
pigeonhole principle to extract a cycle from any counterexample. -/
theorem acyclic_source (w : Workflow) (hac : w.acyclicEligible) :
    ∀ S : List Nat, S ≠ [] → (∀ s ∈ S, s ∈ mkeys w.build_dependencies) →
      ∃ a ∈ S, ∀ p ∈ w.build_dependencies, p.1 = a → ∀ b ∈ p.2, b ∉ S := by
  intro S hne _
  by_contra hcon
  push_neg at hcon
  have hstep : ∀ a, a ∈ S → ∃ b, b ∈ S ∧ w.depends b a := by
    intro a ha
    obtain ⟨p, hp, hpa, b, hbp, hbS⟩ := hcon a ha
    have hfind : mfind? w.build_dependencies p.1 = some p.2 :=
      mem_mfind?_of_nodup _ p.1 p.2 (build_dependencies_nodup w) hp
    have hdep := (build_dependencies_find_iff w p.1 p.2 hfind b).mp hbp
    rw [hpa] at hdep
    exact ⟨b, hbS, hdep⟩
  obtain ⟨s0, hs0⟩ := List.exists_mem_of_ne_nil S hne
  choose f hf1 hf2 using hstep
  let F : { x : Nat // x ∈ S } → { x : Nat // x ∈ S } :=
    fun x => ⟨f x.1 x.2, hf1 x.1 x.2⟩
  let g : Nat → { x : Nat // x ∈ S } := fun n => F^[n] ⟨s0, hs0⟩
  have hchain : ∀ n, w.depends (g (n + 1)).1 (g n).1 := by
    intro n
    have hg : g (n + 1) = F (g n) := Function.iterate_succ_apply' F n _
    rw [hg]
    exact hf2 (g n).1 (g n).2
  have htrans : ∀ i j, i < j → Relation.TransGen w.depends (g j).1 (g i).1 := by
    intro i j hij
    induction j, hij using Nat.le_induction with
    | base => exact Relation.TransGen.single (hchain i)
    | succ n hmn ih => exact Relation.TransGen.head (hchain n) ih
  have hmaps : ∀ i ∈ Finset.range (S.toFinset.card + 1),
      (g i).1 ∈ S.toFinset := fun i _ => List.mem_toFinset.mpr (g i).2
  obtain ⟨i, _, j, _, hne2, heq⟩ := Finset.exists_ne_map_eq_of_card_lt_of_maps_to
    (by rw [Finset.card_range]; exact Nat.lt_succ_self _) hmaps
  rcases lt_or_gt_of_ne hne2 with hij | hij
  · have ht := htrans i j hij
    rw [← heq] at ht
    exact hac _ ht
  · have ht := htrans j i hij
    rw [heq] at ht
    exact hac _ ht

/-- Two eligible model nodes wired into a 2-cycle (`1 → 2` and `2 → 1`). -/
def wCycle : Workflow :=
  { nodes :=
      [(1, Node.new 1 (NodeType.model ProviderType.ollama "" [] false) 0 0),
       (2, Node.new 2 (NodeType.model ProviderType.ollama "" [] false) 50 0)]
    connections :=
      [(0, { id := 0, from_node_id := 1, to_node_id := 2 }),
       (1, { id := 1, from_node_id := 2, to_node_id := 1 })]
    next_node_id := 3
    next_connection_id := 2
    selected_node_id := none
    dragging_node_id := none
    drawing_connection_state := ConnectionDrawingState.dflt }

theorem wCycle_order : wCycle.execution_order = [] := by
  rw [Workflow.execution_order]
  have hb : wCycle.build_dependencies = [(1, [2]), (2, [1])] := by decide
  rw [hb]
  exact kahnLoop_stuck _ _ (by decide) (by decide)

/-- C2: `execution_order` always terminates and yields a list of eligible
(Model-kind, `needs_execution`) node ids without duplicates, in which every
eligible dependency comes out before its dependent; when the dependency
graph restricted to the eligible set is acyclic the list is complete, and on
the concrete 2-cycle `wCycle` the function returns the empty partial order
instead of looping or panicking. -/
theorem execution_order_spec (w : Workflow) :
    (∀ id ∈ w.execution_order, ∃ p ∈ w.nodes, p.1 = id ∧ p.2.needs_execution = true ∧
      ∃ prov mn msgs th, p.2.node_type = NodeType.model prov mn msgs th) ∧
    w.execution_order.Nodup ∧
    (∀ a b, w.depends b a → a ∈ w.execution_order → listBefore w.execution_order b a) ∧
    (w.acyclicEligible → ∀ id ∈ w.model_nodes_list, id ∈ w.execution_order) ∧
    wCycle.execution_order = [] := by
  refine ⟨?_, ?_, ?_, ?_, wCycle_order⟩
  · intro id hid
    unfold Workflow.execution_order at hid
    obtain ⟨ext, hext, hmem⟩ := kahnLoop_prefix w.build_dependencies []
    rw [hext, List.nil_append] at hid
    exact (mem_model_nodes w id).mp ((build_dependencies_keys w id).mp (hmem id hid))
  · exact kahnLoop_nodup _ [] (build_dependencies_nodup w) List.nodup_nil (by simp)
  · intro a b hdep haout
    unfold Workflow.execution_order at haout ⊢
    have hamem : a ∈ mkeys w.build_dependencies :=
      (build_dependencies_keys w a).mpr hdep.1
    have hnn : mfind? w.build_dependencies a ≠ none := by
      rw [Ne, mfind?_eq_none_iff]
      simpa using hamem
    obtain ⟨ds, hds⟩ := Option.ne_none_iff_exists'.mp hnn
    have hb : b ∈ ds := (build_dependencies_find_iff w a ds hds b).mpr hdep
    exact kahnLoop_before _ [] a b ds (build_dependencies_nodup w)
      (mfind?_mem _ _ _ hds) hb ((build_dependencies_keys w b).mpr hdep.2.1)
      (by simp) (by simp) haout
  · intro hac id hid
    unfold Workflow.execution_order
    refine kahnLoop_complete _ [] ?_ (acyclic_source w hac) id
      ((build_dependencies_keys w id).mpr hid)
    intro p hp d hd
    have hfind := mem_mfind?_of_nodup _ p.1 p.2 (build_dependencies_nodup w) hp
    have hdep := (build_dependencies_find_iff w p.1 p.2 hfind d).mp hd
    exact (build_dependencies_keys w d).mpr hdep.2.1

/-- Witness for C2: the single fresh model node has an acyclic (empty)
dependency graph, so the completeness conjunct puts it in the order. -/
theorem execution_order_spec_witness : 1 ∈ wEmptyModel.execution_order :=
  (execution_order_spec wEmptyModel).2.2.2.1
    (by
      intro a h
      cases h with
      | single hr =>
        rcases hr with ⟨_, _, c, hc, _⟩
        simp [wEmptyModel, mvalues] at hc
      | tail hab hbc =>
        rcases hbc with ⟨_, _, c, hc, _⟩
        simp [wEmptyModel, mvalues] at hc)
    1 (by decide)

end Mosaik
